import Mathlib

/-!
Verification development for the DiMeTrans Discord translator extension
(`src/content.js`).  The translator core — message identity, channel scope
tracking, content extraction, the global text→translation cache, the
manual flag-icon path (`translateSingleMessage`) and the automatic
processing pass (`processMessages`) — is embedded shallowly below.

Modelling conventions (each noted again at the definition it concerns):
* The DOM is modelled as a tree of element/text nodes.  A candidate
  "markup" message element is represented by its own subtree plus its
  ancestor chain (attribute data of each ancestor up to, excluding,
  `document.body`) and a visibility bit abstracting the
  `getBoundingClientRect` viewport test of `isElementVisible`.
* Siblings inserted by the translator right after a message element
  (flag-icon containers, translation `div`s) are kept, nearest first, in a
  per-message `attached` list; `insertBefore(x, messageElement.nextSibling)`
  is list cons.  Discord renders each markup element in its own container,
  which is what `hasFlagNearby`'s sibling scan assumes here.
* JS `Map` is an association list whose `set` rebinds an existing key in
  place, `Set` an append-only list of distinct keys.
* The backend (`chrome.runtime.sendMessage` with `type: 'fetch'`, proxied
  by the background script) is an oracle `Nat → ApiResp` indexed by the
  global count of outbound requests made so far; the outbound request log
  and a delay/request event trace are threaded through the state.
* Strings are ASCII in every concrete input, so `String.trim`,
  `Char.toNat` and codepoint length coincide with JS `trim`, `charCodeAt`
  and UTF-16 length on the inputs considered.
-/

namespace DiMeTrans

/-- Substring containment on character lists (JS `String.includes`). -/
def listContainsSeg (s pat : List Char) : Bool :=
  (List.range (s.length + 1)).any fun i => pat.isPrefixOf (s.drop i)

/-- JS `String.includes` / `[class*="..."]` attribute-substring match. -/
def strContains (s pat : String) : Bool :=
  listContainsSeg s.toList pat.toList

/-- JS `String.startsWith` / `[id^="..."]` attribute-prefix match. -/
def strStarts (s pat : String) : Bool :=
  pat.toList.isPrefixOf s.toList

/-- JS `String.prototype.trim` (structural, so kernel-evaluable; on the
ASCII inputs considered it agrees with the JS Unicode-whitespace trim). -/
def jsTrim (s : String) : String :=
  String.mk
    (((s.toList.dropWhile Char.isWhitespace).reverse.dropWhile
        Char.isWhitespace).reverse)

/-- JS `Map.has`. -/
def mapHas {α : Type} (m : List (String × α)) (k : String) : Bool :=
  m.any fun p => p.1 = k

/-- JS `Map.get` (first binding; a `Map` holds one binding per key). -/
def mapGet {α : Type} (m : List (String × α)) (k : String) : Option α :=
  (m.find? fun p => p.1 = k).map Prod.snd

/-- JS `Map.set`: rebind an existing key in place, else append. -/
def mapSet {α : Type} (m : List (String × α)) (k : String) (v : α) :
    List (String × α) :=
  match m with
  | [] => [(k, v)]
  | p :: rest => if p.1 = k then (k, v) :: rest else p :: mapSet rest k v

/-- JS `Set.add` (no duplicates, insertion order kept). -/
def setAdd (s : List String) (k : String) : List String :=
  if s.contains k then s else s ++ [k]

/-- Wrap an integer into the int32 range, as JS `x & x` / `ToInt32` does. -/
def toInt32 (n : Int) : Int :=
  let m := n % 4294967296
  if m < 2147483648 then m else m - 4294967296

/-- One loop step of `simpleHash` (content.js 497-505):
`hash = ((hash << 5) - hash) + charCode; hash = hash & hash`.
The shift happens on int32 values, the subtraction and addition are exact
in doubles, and the final `& hash` truncates back to int32. -/
def simpleHashStep (h : Int) (c : Char) : Int :=
  toInt32 (toInt32 (h * 32) - h + c.toNat)

/-- Digit character for base-36 output (`0-9a-z`). -/
def digit36 (d : Nat) : Char :=
  if d < 10 then Char.ofNat (48 + d) else Char.ofNat (87 + d)

/-- Base-36 digits of `n`, least significant first.  The first argument is
fuel (structural recursion keeps the definition kernel-evaluable); `n`
itself is always enough fuel since `n / 36 < n` for positive `n`. -/
def base36Aux : Nat → Nat → List Char
  | 0, _ => []
  | fuel + 1, n =>
    if n = 0 then [] else digit36 (n % 36) :: base36Aux fuel (n / 36)

/-- JS `Number.prototype.toString(36)` for naturals. -/
def natToBase36 (n : Nat) : String :=
  if n = 0 then "0" else String.mk (base36Aux n n).reverse

/-- `simpleHash` (content.js 497-505): 32-bit string hash rendered as
`Math.abs(hash).toString(36)`. -/
def simpleHash (s : String) : String :=
  natToBase36 (s.toList.foldl simpleHashStep 0).natAbs

/-! ## DOM model -/

/-- A DOM node: an element with tag, `id` attribute, `class` attribute,
a `contenteditable="true"` bit and children, or a text node. -/
inductive Node where
  | elem (tag idAttr className : String) (editable : Bool) (kids : List Node)
  | txt (s : String)

/-- The element's `id` attribute ("" for text nodes). -/
def Node.nodeId : Node → String
  | .elem _ i _ _ _ => i
  | .txt _ => ""

mutual
/-- `Node.textContent` (concatenation of all text descendants). -/
def textContent : Node → String
  | .txt s => s
  | .elem _ _ _ _ kids => textContentList kids

def textContentList : List Node → String
  | [] => ""
  | n :: rest => textContent n ++ textContentList rest
end

mutual
/-- Remove every element in the subtree matching `p`, mirroring
`clone.querySelectorAll(sel).forEach(el => el.remove())` (the root itself
is never removed, as in the source: `querySelectorAll` on an element only
matches descendants). -/
def removeAll (p : Node → Bool) : Node → Node
  | .txt s => .txt s
  | .elem t i c e kids => .elem t i c e (removeAllList p kids)

def removeAllList (p : Node → Bool) : List Node → List Node
  | [] => []
  | n :: rest =>
    if p n then removeAllList p rest
    else removeAll p n :: removeAllList p rest
end

mutual
/-- Does some strict descendant of the node satisfy `p`
(`element.querySelector(sel) !== null`)? -/
def existsDesc (p : Node → Bool) : Node → Bool
  | .txt _ => false
  | .elem _ _ _ _ kids => existsDescList p kids

def existsDescList (p : Node → Bool) : List Node → Bool
  | [] => false
  | n :: rest => (p n || existsDesc p n) || existsDescList p rest
end

/-- Selector predicate for `textarea, [contenteditable="true"]`. -/
def isEditNode : Node → Bool
  | .elem tag _ _ editable _ => tag = "textarea" || editable
  | .txt _ => false

/-! ## URL stripping (regex replace with `''`) -/

/-- Case-insensitive character match (JS regex `/i` flag). -/
def ciEq (a b : Char) : Bool := a.toLower = b.toLower

/-- Case-insensitive literal prefix match; returns the remainder. -/
def ciPrefixDrop : List Char → List Char → Option (List Char)
  | [], cs => some cs
  | _ :: _, [] => none
  | p :: ps, c :: cs => if ciEq p c then ciPrefixDrop ps cs else none

/-- Case-sensitive literal prefix match; returns the remainder. -/
def csPrefixDrop : List Char → List Char → Option (List Char)
  | [], cs => some cs
  | _ :: _, [] => none
  | p :: ps, c :: cs => if p = c then csPrefixDrop ps cs else none

/-- Length of the maximal leading run of non-whitespace (`[^\s]+` is
greedy); `none` when the run is empty (the `+` requires one char). -/
def nonspaceRun (cs : List Char) : Option Nat :=
  let n := (cs.takeWhile fun c => !c.isWhitespace).length
  if n = 0 then none else some n

/-- Match one regex alternative `lit[^\s]+` at the head of `cs`, returning
the total match length. -/
def litUrlAlt (cmp : List Char → List Char → Option (List Char))
    (lit : List Char) (cs : List Char) : Option Nat := do
  let rest ← cmp lit cs
  let n ← nonspaceRun rest
  pure (lit.length + n)

/-- Match `https?:\/\/[^\s]+` at the head (case behaviour via `cmp`):
literal `http`, optional `s`, `://`, then one or more non-space chars. -/
def httpAlt (cmp : List Char → List Char → Option (List Char))
    (cs : List Char) : Option Nat :=
  match litUrlAlt cmp "https://".toList cs with
  | some n => some n
  | none => litUrlAlt cmp "http://".toList cs

/-- Match at the head of `cs` for the discovery-pass regex
`/https?:\/\/[^\s]+|www\.[^\s]+|discord\.gg\/[^\s]+/gi`
(content.js 1286), alternatives tried left to right. -/
def urlMatchAuto (cs : List Char) : Option Nat :=
  match httpAlt ciPrefixDrop cs with
  | some n => some n
  | none =>
    match litUrlAlt ciPrefixDrop "www.".toList cs with
    | some n => some n
    | none => litUrlAlt ciPrefixDrop "discord.gg/".toList cs

/-- Match at the head of `cs` for the manual-path regex
`/https?:\/\/[^\s]+/g` (content.js 980), case-sensitive. -/
def urlMatchManual (cs : List Char) : Option Nat :=
  httpAlt csPrefixDrop cs

/-- Global regex replace with `''`: scan left to right, delete each match,
resume after it (every match consumes at least the head character).  The
first argument is fuel (structural recursion keeps the definition
kernel-evaluable); the list length is always enough fuel. -/
def stripUrlsGo (matchFn : List Char → Option Nat) : Nat → List Char → List Char
  | 0, _ => []
  | _, [] => []
  | fuel + 1, c :: rest =>
    match matchFn (c :: rest) with
    | some n => stripUrlsGo matchFn fuel (rest.drop (n - 1))
    | none => c :: stripUrlsGo matchFn fuel rest

/-- Global regex replace with `''` over a whole character list. -/
def stripUrlsWith (matchFn : List Char → Option Nat) (cs : List Char) : List Char :=
  stripUrlsGo matchFn cs.length cs

/-- `text.replace(urlRegex, '')` for the discovery pass. -/
def stripUrlsAuto (s : String) : String :=
  String.mk (stripUrlsWith urlMatchAuto s.toList)

/-- `text.replace(/https?:\/\/[^\s]+/g, '')` for the manual path. -/
def stripUrlsManual (s : String) : String :=
  String.mk (stripUrlsWith urlMatchManual s.toList)

/-! ## Content extraction -/

/-- Selector of the quote/reply removal in `extractTextParts`
(content.js 1244-1250): `[class*="repliedMessage"], [class*="repliedText"],
[class*="blockquote"], [id^="message-reply-context"]`. -/
def isQuoteNode : Node → Bool
  | .elem _ i c _ _ =>
      strContains c "repliedMessage" || strContains c "repliedText" ||
      strContains c "blockquote" || strStarts i "message-reply-context"
  | .txt _ => false

/-- Selector of the embed removal in `extractTextParts` (content.js
1253-1258): `[class*="embed"], [class*="embedWrapper"],
[class*="messageAccessories"], [id^="message-accessories"]`. -/
def isEmbedNode : Node → Bool
  | .elem _ i c _ _ =>
      strContains c "embed" || strContains c "embedWrapper" ||
      strContains c "messageAccessories" || strStarts i "message-accessories"
  | .txt _ => false

/-- Tag selector predicate (for `pre` / `code`). -/
def isTag (t : String) : Node → Bool
  | .elem tag _ _ _ _ => tag = t
  | .txt _ => false

/-- `extractTextParts` (content.js 1239-1308): clone, drop quotes/replies,
embeds, `pre` and then `code` elements, take the trimmed `textContent`,
strip URLs, and return `[]` for empty, URL-only, or sub-3-character text.
The source's `elementIndex` parameter is dropped: it feeds debug logging
only. -/
def extractTextParts (element : Node) : List String :=
  let clone := removeAll isQuoteNode element
  let clone := removeAll isEmbedNode clone
  let clone := removeAll (isTag "pre") clone
  let clone := removeAll (isTag "code") clone
  let text := jsTrim (textContent clone)
  if text = "" then []
  else
    let text := jsTrim (stripUrlsAuto text)
    if text = "" then []
    else if text.length < 3 then []
    else [text]

/-- Selector of the removal in `extractCleanText` (content.js 967-973):
`[class*="repliedMessage"], [class*="repliedText"], [class*="embed"],
pre, code, img, video, audio`. -/
def isManualRemoveNode : Node → Bool
  | .elem t _ c _ _ =>
      strContains c "repliedMessage" || strContains c "repliedText" ||
      strContains c "embed" ||
      t = "pre" || t = "code" || t = "img" || t = "video" || t = "audio"
  | .txt _ => false

/-- `extractCleanText` (content.js 963-983): clone, remove reply/embed/code
and media elements, take `textContent`, strip `https?` URLs, trim. -/
def extractCleanText (element : Node) : String :=
  let clone := removeAll isManualRemoveNode element
  let text := textContent clone
  jsTrim (stripUrlsManual text)

/-! ## Message elements, identity, channel scope -/

/-- Attribute data of one ancestor of a message element (the chain runs
from the parent upward, ending just below `document.body`).
`hasEditField` abstracts `parent.querySelector('textarea,
[contenteditable="true"]') !== null` evaluated on that ancestor. -/
structure Anc where
  idAttr : String
  className : String
  role : String
  hasEditField : Bool
deriving DecidableEq, Repr

/-- A candidate `[class*="markup"]` message element: its subtree, its
ancestor chain, and the `isElementVisible` viewport bit (content.js
510-520 computes it from `getBoundingClientRect`; the geometry is
abstracted to this per-element boolean, recomputed by the host). -/
structure MsgEl where
  node : Node
  ancestors : List Anc
  visible : Bool

/-- The ancestor-walk of `getMessageId` (content.js 473-492): first id
containing `chat-messages-` or starting with `message-content-`; the JS
truthiness guard `current.id && ...` is subsumed (an empty id matches
neither test). -/
def idWalk : List String → Option String
  | [] => none
  | i :: rest =>
    if strContains i "chat-messages-" then some i
    else if strStarts i "message-content-" then some i
    else idWalk rest

/-- `getMessageId` (content.js 473-492): walk self and ancestors for a
structural id, else fall back to
`msg-${simpleHash(text)}-${position}` where `position` is the element's
index among all `[class*="markup"]` elements — in this model, its index
in the page list (flag containers and translation `div`s the translator
inserts never match `[class*="markup"]`, so the index is stable). -/
def getMessageId (m : MsgEl) (position : Nat) : String :=
  match idWalk (m.node.nodeId :: m.ancestors.map Anc.idAttr) with
  | some i => i
  | none =>
      "msg-" ++ simpleHash (jsTrim (textContent m.node)) ++ "-" ++ toString position

/-- Whitespace-separated tokens of a class attribute (structural). -/
def tokenizeGo : List Char → List Char → List (List Char)
  | [], acc => if acc.isEmpty then [] else [acc.reverse]
  | c :: rest, acc =>
    if c.isWhitespace then
      if acc.isEmpty then tokenizeGo rest [] else acc.reverse :: tokenizeGo rest []
    else tokenizeGo rest (c :: acc)

/-- `classList.contains`: exact class-token membership. -/
def classTokens (s : String) : List String :=
  (tokenizeGo s.toList []).map String.mk

/-- The parent walk of `isMessageBeingEdited` (content.js 648-662): climb
at most 10 ancestors looking for a message container (`role === 'article'`
or class token `message`); if found, report whether it contains an edit
field, and stop. -/
def editedContainerWalk : List Anc → Nat → Bool
  | [], _ => false
  | a :: rest, depth =>
    if depth < 10 then
      if a.role = "article" || (classTokens a.className).contains "message" then
        a.hasEditField
      else editedContainerWalk rest (depth + 1)
    else false

/-- `isMessageBeingEdited` (content.js 642-665): the element's subtree
contains `textarea`/`contenteditable="true"`, or its message container
does. -/
def isMessageBeingEdited (m : MsgEl) : Bool :=
  existsDesc isEditNode m.node || editedContainerWalk m.ancestors 0

/-- One ancestor's embed test (content.js 682-689 / 1178-1186).  The
source checks both the joined `classList` and `className` strings, which
carry the same class data; the model keeps one `className`. -/
def ancIsEmbed (a : Anc) : Bool :=
  strContains a.className "embed" ||
  strContains a.className "messageAccessories" ||
  (strContains a.className "container" && strContains a.className "embedWrapper") ||
  strContains a.idAttr "message-accessories"

/-- One ancestor's reply/quote test (content.js 699-702 / 1196-1199). -/
def ancIsReply (a : Anc) : Bool :=
  strContains a.className "repliedMessage" ||
  strContains a.className "repliedText" ||
  strStarts a.idAttr "message-reply-context"

/-- The embed ancestor walk (up to `document.body`). -/
def insideEmbed (m : MsgEl) : Bool := m.ancestors.any ancIsEmbed

/-- The reply ancestor walk (up to `document.body`). -/
def insideReply (m : MsgEl) : Bool := m.ancestors.any ancIsReply

/-- `shouldSkipMessage` (content.js 670-710): editing, embed ancestor, or
reply ancestor. -/
def shouldSkipMessage (m : MsgEl) : Bool :=
  isMessageBeingEdited m || insideEmbed m || insideReply m

/-- Length of the leading digit run (`\d+` is greedy). -/
def digitsRun (cs : List Char) : Nat :=
  (cs.takeWhile Char.isDigit).length

/-- Match `\/channels\/(\d+)\/(\d+)` at the head of `cs`, returning the
second capture group. -/
def channelsMatchAt (cs : List Char) : Option String :=
  match csPrefixDrop "/channels/".toList cs with
  | none => none
  | some rest =>
    let d1 := digitsRun rest
    if d1 = 0 then none
    else
      match rest.drop d1 with
      | '/' :: rest2 =>
        let d2 := digitsRun rest2
        if d2 = 0 then none else some (String.mk (rest2.take d2))
      | _ => none

/-- First match of the channel regex anywhere in the pathname. -/
def findChannels : List Char → Option String
  | [] => none
  | c :: rest =>
    match channelsMatchAt (c :: rest) with
    | some s => some s
    | none => findChannels rest

/-- `getCurrentChannelId` (content.js 525-539): channel id parsed from
`window.location.pathname`, else a hash of the `[class*="title"]`
element's text (`titleText`, `none` when the element is absent), else
`unknown-channel`. -/
def getCurrentChannelId (pathname : String) (titleText : Option String) : String :=
  match findChannels pathname.toList with
  | some ch => ch
  | none =>
    match titleText with
    | some t => "channel-" ++ simpleHash t
    | none => "unknown-channel"

/-! ## Translator state -/

/-- Icon state of a flag affordance: freshly offered, `translating`
(loading animation), or the error icon left after a failed manual
translation. -/
inductive FlagState where
  | idle
  | busy
  | errored
deriving DecidableEq, Repr

/-- A sibling node the translator inserted right after a message element:
a flag-icon container (`FLAG_CONTAINER_CLASS`) or a translation `div`
(`TRANSLATION_CLASS`). -/
inductive Att where
  | flag (st : FlagState)
  | transl (s : String)
deriving DecidableEq, Repr

/-- Is the attachment a flag container? -/
def Att.isFlag : Att → Bool
  | .flag _ => true
  | .transl _ => false

/-- Is the attachment a translation `div`? -/
def Att.isTransl : Att → Bool
  | .transl _ => true
  | .flag _ => false

/-- A message element together with its host context: whether it is still
connected to the document (`element.isConnected`), whether it has a parent
to insert siblings into, and the translator-inserted siblings immediately
after it, nearest first (`insertBefore(x, messageElement.nextSibling)`
conses onto this list; `nextSibling` is its head). -/
structure Container where
  msg : MsgEl
  connected : Bool
  hasParent : Bool
  attached : List Att

/-- Observable actions: an outbound translation request
(`chrome.runtime.sendMessage` carrying `type: 'fetch'`), or an awaited
`delay(ms)`. -/
inductive Ev where
  | evReq (text : String)
  | evDelay (ms : Nat)
deriving DecidableEq, Repr

/-- `CONFIG.API_DELAY_MS` (content.js 28). -/
def API_DELAY_MS : Nat := 50

/-- `CONFIG.MANUAL_TRANSLATION` (content.js 34). -/
def MANUAL_TRANSLATION : Bool := true

/-- The translator's mutable state (fields of `DiscordTranslator` plus the
context-invalidated bit of `ContentScriptContext`), the page, and the
observable request/event log.  `messageTranslations` values keep the
`{ text, translation }` parts of the stored record; the `element`
back-reference and `Date.now()` timestamp are never read by the core and
are dropped. -/
structure World where
  translationCache : List (String × String)
  processedMessages : List String
  messageTranslations : List (String × (String × String))
  currentChannelId : Option String
  isActive : Bool
  processingInterval : Bool
  cancelled : Bool
  page : List Container
  reqs : List String
  events : List Ev

/-- `stopProcessing` (content.js 437-443): clear the cycle interval. -/
def stopProcessing (w : World) : World :=
  { w with processingInterval := false }

/-- `checkChannelChange` (content.js 544-561): on a scope change, clear
`processedMessages` and `messageTranslations`, keep `translationCache`,
record the new channel id, and report whether a change happened. -/
def checkChannelChange (w : World) (pathname : String)
    (titleText : Option String) : Bool × World :=
  let newChannelId := getCurrentChannelId pathname titleText
  if w.currentChannelId ≠ some newChannelId then
    (true, { w with processedMessages := [], messageTranslations := [],
                    currentChannelId := some newChannelId })
  else (false, w)

/-- `hasFlagNearby` (content.js 792-812): the sibling scan and the parent
`querySelector` collapse, under the one-message-per-container layout, to:
some flag container is attached to this message. -/
def hasFlagNearby (c : Container) : Bool :=
  c.attached.any Att.isFlag

/-- Record an outbound translation request (the `sendMessage` call with
`type: 'fetch'` in `translateText` / the `processMessages` loop). -/
def issueRequest (w : World) (text : String) : World :=
  { w with reqs := w.reqs ++ [text], events := w.events ++ [.evReq text] }

/-- Update the state of the first flag attached to a message
(`flagIcon.classList` / `title` / `innerHTML` changes). -/
def setFirstFlag (st : FlagState) : List Att → List Att
  | [] => []
  | .flag _ :: rest => .flag st :: rest
  | a :: rest => a :: setFirstFlag st rest

/-- Drop the first flag attached to a message. -/
def removeFirstFlag : List Att → List Att
  | [] => []
  | .flag _ :: rest => rest
  | a :: rest => a :: removeFirstFlag rest

/-- Set the clicked flag icon's visual state on container `i`. -/
def setFlagIconState (w : World) (i : Nat) (st : FlagState) : World :=
  match w.page.get? i with
  | none => w
  | some c =>
      { w with page := w.page.set i { c with attached := setFirstFlag st c.attached } }

/-- `removeTranslationIcon` (content.js 1098-1114): remove the flag
container (or, failing that, the icon) from the DOM. -/
def removeTranslationIcon (w : World) (i : Nat) : World :=
  match w.page.get? i with
  | none => w
  | some c =>
      { w with page := w.page.set i { c with attached := removeFirstFlag c.attached } }

/-- Backend outcome of one proxied fetch, as `translateSingleMessage` /
`processMessages` can observe it: the send rejects
(`chrome.runtime.lastError`), the callback delivers a falsy
`responseText`, `JSON.parse` throws, the parsed object has no
`translatedText`, or it has one (possibly empty or blank). -/
inductive ApiResp where
  | sendError
  | noResponse
  | parseError
  | missing
  | ok (translatedText : String)
deriving DecidableEq, Repr

/-- Result of `translateText` (content.js 988-1036): the translated text
when the response carries a non-blank `translatedText`, otherwise a thrown
error (`Invalid API response`, a rethrown parse error, or the rejected
send). -/
inductive TransResult where
  | success (s : String)
  | failure
deriving DecidableEq, Repr

/-- Classify one backend outcome as `translateText` does. -/
def translateTextOutcome : ApiResp → TransResult
  | .ok s => if jsTrim s ≠ "" then .success s else .failure
  | _ => .failure

/-- `displaySingleTranslation` (content.js 1041-1093): unless a
translation `div` is already the next sibling, insert one after the
message and store `{ text, translation }` under the message id.  A missing
parent makes the DOM insertion throw into the function's own catch before
the store. -/
def displaySingleTranslation (w : World) (i : Nat) (translatedText : String)
    (messageId : String) : World :=
  match w.page.get? i with
  | none => w
  | some c =>
    if (c.attached.head?.map Att.isTransl).getD false then w
    else if ¬ c.hasParent then w
    else
      { w with
        page := w.page.set i { c with attached := .transl translatedText :: c.attached },
        messageTranslations := mapSet w.messageTranslations messageId
          (jsTrim (textContent c.msg.node), translatedText) }

/-- The resumption data of a `translateSingleMessage` call suspended at
`await this.translateText(textContent)`: which container and message it
is for, the extracted text it requested, and the global index of its
outbound request. -/
structure PendingReq where
  containerIdx : Nat
  messageId : String
  extracted : String
  reqIdx : Nat
deriving DecidableEq, Repr

/-- `translateSingleMessage` (content.js 871-958) up to its suspension
point: the already-translated early exit (icon removed), the loading-icon
switch, extraction (empty text resets the icon), the cache fast path
(displayed, icon removed), and otherwise the outbound request, returning
the pending resumption.  The function never consults
`context.cancelled`. -/
def translateSingleMessagePhase1 (w : World) (i : Nat) :
    World × Option PendingReq :=
  match w.page.get? i with
  | none => (w, none)
  | some c =>
    let messageId := getMessageId c.msg i
    if mapHas w.messageTranslations messageId then
      (removeTranslationIcon w i, none)
    else
      let w := setFlagIconState w i .busy
      let extracted := extractCleanText c.msg.node
      if extracted = "" then
        (setFlagIconState w i .idle, none)
      else if mapHas w.translationCache extracted then
        let cachedTranslation := (mapGet w.translationCache extracted).getD ""
        let w := displaySingleTranslation w i cachedTranslation messageId
        (removeTranslationIcon w i, none)
      else
        (issueRequest w extracted, some ⟨i, messageId, extracted, w.reqs.length⟩)

/-- `translateSingleMessage` after the suspension point: on success the
translation is cached, displayed, and the icon removed (content.js
929-939, cache write before display); on any failure the icon switches to
the error state and nothing is cached (content.js 944-957). -/
def translateSingleMessagePhase2 (api : Nat → ApiResp) (w : World)
    (p : PendingReq) : World :=
  match translateTextOutcome (api p.reqIdx) with
  | .success translation =>
      let w := { w with
        translationCache := mapSet w.translationCache p.extracted translation }
      let w := displaySingleTranslation w p.containerIdx translation p.messageId
      removeTranslationIcon w p.containerIdx
  | .failure => setFlagIconState w p.containerIdx .errored

/-- A full, uninterleaved run of `translateSingleMessage` on container
`i`. -/
def translateSingleMessage (api : Nat → ApiResp) (w : World) (i : Nat) : World :=
  match translateSingleMessagePhase1 w i with
  | (w, none) => w
  | (w, some p) => translateSingleMessagePhase2 api w p

/-! ## The manual discovery pass (`addFlagIcons`) -/

/-- `createFlagIcon` (content.js 715-742): insert a flag container right
after the message; fails (returns null) when the message has no parent. -/
def createFlagIcon (w : World) (i : Nat) (c : Container) : Option World :=
  if c.hasParent then
    some { w with page := w.page.set i { c with attached := .flag .idle :: c.attached } }
  else none

/-- One iteration of the `addFlagIcons` loop (content.js 575-634), in
source order: skip while edited; skip ids already in `processedMessages`;
a nearby flag or an existing translation marks the id processed and skips;
embeds/replies, empty `textContent`, and invisible messages skip with no
state change; otherwise a flag is attached and the id marked processed.
`analyzeMessageStructure` is debug logging and a no-op here. -/
def flagStep (w : World) (i : Nat) : World :=
  match w.page.get? i with
  | none => w
  | some c =>
    let messageId := getMessageId c.msg i
    if isMessageBeingEdited c.msg then w
    else if w.processedMessages.contains messageId then w
    else if hasFlagNearby c then
      { w with processedMessages := setAdd w.processedMessages messageId }
    else if mapHas w.messageTranslations messageId then
      { w with processedMessages := setAdd w.processedMessages messageId }
    else if shouldSkipMessage c.msg then w
    else if jsTrim (textContent c.msg.node) = "" then w
    else if ¬ c.msg.visible then w
    else
      match createFlagIcon w i c with
      | some w2 => { w2 with processedMessages := setAdd w2.processedMessages messageId }
      | none => w

/-- `addFlagIcons` (content.js 566-637): iterate the `[class*="markup"]`
snapshot in document order.  Per-message errors are caught and isolated in
the source; the model's steps are total. -/
def addFlagIcons (w : World) : World :=
  (List.range w.page.length).foldl flagStep w

/-! ## The automatic pass (`processMessages`) -/

/-- The eligibility filter of the automatic path (content.js 1157-1221):
not being edited, id not yet processed, no embed ancestor, no reply
ancestor, non-blank `textContent`, and visible.  The two ancestor walks
duplicate `shouldSkipMessage`'s logic inline. -/
def eligibleAuto (w : World) (i : Nat) (c : Container) : Bool :=
  !(isMessageBeingEdited c.msg) &&
  !(w.processedMessages.contains (getMessageId c.msg i)) &&
  !(insideEmbed c.msg) &&
  !(insideReply c.msg) &&
  jsTrim (textContent c.msg.node) ≠ "" &&
  c.msg.visible

/-- The filtered, document-ordered work list of one automatic discovery
pass, each message paired with its page index. -/
def msgFilter (w : World) : List (Nat × Container) :=
  w.page.enum.filter fun p => eligibleAuto w p.1 p.2

/-- One entry of `textsToTranslate` (content.js 1347): the element
(referenced by page index), its extracted text, and its message id.  The
`index` field feeds logging only and is dropped. -/
structure TransItem where
  elementIdx : Nat
  text : String
  messageId : String
deriving DecidableEq, Repr

/-- `displayTranslation` (content.js 1504-1620), in source order:
disconnected elements and blank translations only mark the id processed;
an id already processed is skipped outright; an existing translation
`div` as next sibling marks processed; a missing/disconnected parent marks
processed; otherwise the translation `div` is inserted, the id marked
processed, and the record stored (the backup `PROCESSED_ATTRIBUTE` write
is never read back and is dropped). -/
def displayTranslation (w : World) (i : Nat) (translatedText : String)
    (messageId : String) : World :=
  match w.page.get? i with
  | none => w
  | some c =>
    if ¬ c.connected then
      { w with processedMessages := setAdd w.processedMessages messageId }
    else if jsTrim translatedText = "" then
      { w with processedMessages := setAdd w.processedMessages messageId }
    else if w.processedMessages.contains messageId then w
    else if (c.attached.head?.map Att.isTransl).getD false then
      { w with processedMessages := setAdd w.processedMessages messageId }
    else if ¬ c.hasParent then
      { w with processedMessages := setAdd w.processedMessages messageId }
    else
      { w with
        page := w.page.set i { c with attached := .transl translatedText :: c.attached },
        processedMessages := setAdd w.processedMessages messageId,
        messageTranslations := mapSet w.messageTranslations messageId
          (jsTrim (textContent c.msg.node), translatedText) }

/-- One step of the `textsToTranslate` map (content.js 1313-1349): skip
message ids already seen in this batch, extract, and on a cache hit
display the cached value at once (disconnected elements are just marked
processed) and drop the item; otherwise collect it. -/
def discoverStep (st : World × List String × List TransItem)
    (p : Nat × Container) : World × List String × List TransItem :=
  let (w, seen, acc) := st
  let (i, c) := p
  let messageId := getMessageId c.msg i
  if seen.contains messageId then (w, seen, acc)
  else
    let seen := setAdd seen messageId
    let text := String.join (extractTextParts c.msg.node)
    if mapHas w.translationCache text then
      let cachedTranslation := (mapGet w.translationCache text).getD ""
      let w :=
        if c.connected then displayTranslation w i cachedTranslation messageId
        else { w with processedMessages := setAdd w.processedMessages messageId }
      (w, seen, acc)
    else (w, seen, acc ++ [⟨i, text, messageId⟩])

/-- The discovery map over the filtered list plus the final
`.filter(item => item !== null && item.text)` (content.js 1313-1349). -/
def discover (w : World) (elig : List (Nat × Container)) :
    World × List TransItem :=
  let r := elig.foldl discoverStep (w, [], [])
  (r.1, r.2.2.filter fun item => item.text ≠ "")

/-- One iteration of the translation loop (content.js 1369-1480), with
`i` the loop index used in the sentinel strings.  A rejected send or an
unparseable response `continue`s — skipping both the cache write and the
inter-request delay (their `MESSAGE_ERROR_i` / `PARSE_ERROR_i` values go
into a local array that is never read).  A falsy response body caches
`ERROR_i`; a response without (or with an empty) `translatedText` caches
`NO_TRANSLATION_i`; a non-empty `translatedText` is cached and displayed
immediately.  Iterations that do not `continue` end in
`await delay(CONFIG.API_DELAY_MS)`. -/
def transStep (api : Nat → ApiResp) (w : World) (p : Nat × TransItem) : World :=
  let (i, item) := p
  let resp := api w.reqs.length
  let w := issueRequest w item.text
  match resp with
  | .sendError => w
  | .parseError => w
  | .noResponse =>
      let w := { w with
        translationCache := mapSet w.translationCache item.text ("ERROR_" ++ toString i) }
      { w with events := w.events ++ [.evDelay API_DELAY_MS] }
  | .missing =>
      let w := { w with
        translationCache := mapSet w.translationCache item.text
          ("NO_TRANSLATION_" ++ toString i) }
      { w with events := w.events ++ [.evDelay API_DELAY_MS] }
  | .ok s =>
      if s = "" then
        let w := { w with
          translationCache := mapSet w.translationCache item.text
            ("NO_TRANSLATION_" ++ toString i) }
        { w with events := w.events ++ [.evDelay API_DELAY_MS] }
      else
        let w := { w with translationCache := mapSet w.translationCache item.text s }
        let w :=
          match w.page.get? item.elementIdx with
          | some c =>
            if c.connected then displayTranslation w item.elementIdx s item.messageId
            else { w with processedMessages := setAdd w.processedMessages item.messageId }
          | none =>
            { w with processedMessages := setAdd w.processedMessages item.messageId }
        { w with events := w.events ++ [.evDelay API_DELAY_MS] }

/-- The sequential translation loop over the enumerated items. -/
def transLoop (api : Nat → ApiResp) (w : World)
    (items : List (Nat × TransItem)) : World :=
  items.foldl (transStep api) w

/-- `processMessages` (content.js 1116-1499): halt permanently when the
context is invalidated; do nothing when inactive; rotate the channel
scope; bail on an empty page; in manual mode run `addFlagIcons`; otherwise
filter, discover, and run the translation loop.  `sendStats` reports
counters to the background and touches no core state. -/
def processMessages (api : Nat → ApiResp) (manualTranslation : Bool)
    (pathname : String) (titleText : Option String) (w : World) : World :=
  if w.cancelled then stopProcessing w
  else if ¬ w.isActive then w
  else
    let w := (checkChannelChange w pathname titleText).2
    if w.page.length = 0 then w
    else if manualTranslation then addFlagIcons w
    else
      let elig := msgFilter w
      if elig.isEmpty then w
      else
        let r := discover w elig
        if r.2.isEmpty then r.1
        else transLoop api r.1 r.2.enum

/-- Scan a trace for the minimum-spacing property.  The boolean state
means "a request has been seen with no `delay(API_DELAY_MS)` after it
yet"; the result is `none` when two requests occur with no such delay
between them, else the final state. -/
def delayScan : List Ev → Bool → Option Bool
  | [], b => some b
  | .evReq _ :: rest, b => if b then none else delayScan rest true
  | .evDelay ms :: rest, b =>
      delayScan rest (if ms = API_DELAY_MS then false else b)

/-- The system-wide minimum-spacing property over a trace: every pair of
consecutive outbound requests is separated by an awaited
`delay(API_DELAY_MS)`. -/
def interRequestDelayEnforced (evs : List Ev) : Bool :=
  (delayScan evs false).isSome

/-! ## Concrete fixtures

A plain message: a `div` whose class attribute matches `[class*="markup"]`
holding one text child, inside a container carrying a Discord
`chat-messages-{channel}-{message}` id. -/

/-- A visible, connected plain-text message element. -/
def mkMsg (hostId text : String) : Container :=
  { msg := { node := .elem "div" "" "markup_a" false [.txt text],
             ancestors := [⟨hostId, "", "", false⟩],
             visible := true },
    connected := true, hasParent := true, attached := [] }

/-- The same message with a flag icon already offered. -/
def mkFlagged (hostId text : String) : Container :=
  { mkMsg hostId text with attached := [.flag .idle] }

/-- A message whose whole content is a fenced code block
(Discord renders ```` ```code``` ```` as `pre > code`). -/
def codeBlockMsg : Container :=
  { msg := { node := .elem "div" "" "markup_a" false
               [.elem "pre" "" "" false
                 [.elem "code" "" "hljs" false [.txt "code"]]],
             ancestors := [⟨"chat-messages-100-202", "", "", false⟩],
             visible := true },
    connected := true, hasParent := true, attached := [] }

/-- A fresh translator state on channel `200` observing `page`. -/
def baseW (page : List Container) : World :=
  { translationCache := [], processedMessages := [], messageTranslations := [],
    currentChannelId := some "200", isActive := true, processingInterval := true,
    cancelled := false, page := page, reqs := [], events := [] }

/-- The pathname of channel `200` (no scope rotation from `baseW`). -/
def basePath : String := "/channels/100/200"

/-! ## The message of a container is immutable

Every operation of the translator only inserts or removes attached
siblings (and flags' icon state); no operation rewrites a message
element's subtree, ancestors, or visibility.  `msgAt` names the message
of the `k`-th container. -/

/-- The message element at page position `k`. -/
def msgAt (w : World) (k : Nat) : Option MsgEl :=
  (w.page.get? k).map Container.msg

/-- A run of the `addFlagIcons` loop over a list of positions. -/
def flagPass (w : World) (js : List Nat) : World := js.foldl flagStep w

/-- A visible, connected message element that is currently being edited
(its subtree holds a `textarea`). -/
def editedMsg : Container :=
  { msg := { node := .elem "div" "" "markup_a" false
               [.elem "textarea" "" "" false [], .txt "Hello editing"],
             ancestors := [⟨"chat-messages-100-205", "", "", false⟩],
             visible := true },
    connected := true, hasParent := true, attached := [] }

/-! ## Basic lemmas about the JS collection model -/

theorem mapHas_mapSet {α : Type} (m : List (String × α)) (k k' : String)
    (v : α) : mapHas (mapSet m k v) k' = (mapHas m k' || decide (k' = k)) := by
  induction m with
  | nil =>
    simp only [mapSet, mapHas, List.any_cons, List.any_nil, Bool.or_false,
      Bool.false_or]
    by_cases hk : k' = k
    · subst hk; simp
    · have h1 : (decide (k = k') : Bool) = false := by
        simp; exact fun h => hk h.symm
      have h2 : (decide (k' = k) : Bool) = false := by simp [hk]
      rw [h1, h2]
  | cons p rest ih =>
    simp only [mapSet]
    by_cases hp : p.1 = k
    · rw [if_pos hp]
      simp only [mapHas, List.any_cons]
      by_cases hk : k' = k
      · subst hk; simp
      · have h1 : (decide (k = k') : Bool) = false := by
          simp; exact fun h => hk h.symm
        have h2 : (decide (k' = k) : Bool) = false := by simp [hk]
        have h3 : (decide (p.1 = k') : Bool) = false := by rw [hp]; exact h1
        rw [h1, h2, h3]; simp
    · rw [if_neg hp]
      simp only [mapHas, List.any_cons] at ih ⊢
      rw [ih, Bool.or_assoc]

theorem mapHas_mapSet_mono {α : Type} {m : List (String × α)} {k : String}
    (k' : String) (v : α) (h : mapHas m k = true) :
    mapHas (mapSet m k' v) k = true := by
  rw [mapHas_mapSet]; simp [h]

theorem mapHas_mapSet_self {α : Type} (m : List (String × α)) (k : String)
    (v : α) : mapHas (mapSet m k v) k = true := by
  rw [mapHas_mapSet]; simp

theorem setAdd_mono {s : List String} {x : String} (k : String)
    (h : x ∈ s) : x ∈ setAdd s k := by
  unfold setAdd
  split
  · exact h
  · exact List.mem_append_left _ h

theorem mem_setAdd {s : List String} {x k : String}
    (h : x ∈ setAdd s k) : x ∈ s ∨ x = k := by
  unfold setAdd at h
  split at h
  · exact Or.inl h
  · rcases List.mem_append.mp h with h1 | h1
    · exact Or.inl h1
    · exact Or.inr (List.mem_singleton.mp h1)

theorem setAdd_self (s : List String) (k : String) : k ∈ setAdd s k := by
  unfold setAdd
  split
  · exact List.mem_of_elem_eq_true (by assumption)
  · exact List.mem_append_right _ (List.mem_singleton.mpr rfl)


/-! ## Lemmas about the flag-adding pass -/


theorem flagStep_none {w : World} {j : Nat} (h : w.page.get? j = none) :
    flagStep w j = w := by
  unfold flagStep; rw [h]

theorem flagStep_cache (w : World) (j : Nat) :
    (flagStep w j).translationCache = w.translationCache := by
  unfold flagStep
  cases hp : w.page.get? j with
  | none => rfl
  | some c =>
    dsimp only
    simp only [createFlagIcon]
    split_ifs <;> rfl

theorem flagStep_msgTransl (w : World) (j : Nat) :
    (flagStep w j).messageTranslations = w.messageTranslations := by
  unfold flagStep
  cases hp : w.page.get? j with
  | none => rfl
  | some c =>
    dsimp only
    simp only [createFlagIcon]
    split_ifs <;> rfl

theorem flagStep_len (w : World) (j : Nat) :
    (flagStep w j).page.length = w.page.length := by
  unfold flagStep
  cases hp : w.page.get? j with
  | none => rfl
  | some c =>
    dsimp only
    simp only [createFlagIcon]
    split_ifs <;> simp

theorem flagStep_get_ne {w : World} {j i : Nat} (h : j ≠ i) :
    (flagStep w j).page.get? i = w.page.get? i := by
  unfold flagStep
  cases hp : w.page.get? j with
  | none => rfl
  | some c =>
    dsimp only
    simp only [createFlagIcon]
    split_ifs <;> simp [List.getElem?_set_ne h]

theorem flagStep_msgAt (w : World) (j k : Nat) :
    msgAt (flagStep w j) k = msgAt w k := by
  by_cases hk : j = k
  · subst hk
    unfold flagStep
    cases hp : w.page.get? j with
    | none => rfl
    | some c =>
      obtain ⟨hlt, -⟩ := List.get?_eq_some.mp hp
      have hp' : w.page[j]? = some c := by
        rw [← List.get?_eq_getElem?]; exact hp
      dsimp only
      simp only [createFlagIcon]
      split_ifs <;>
        simp [msgAt, hp, hp', List.getElem?_set_eq hlt, List.get?_eq_getElem?]
  · unfold msgAt
    rw [flagStep_get_ne hk]

theorem flagStep_processed_mono {w : World} {x : String} (j : Nat)
    (h : x ∈ w.processedMessages) :
    x ∈ (flagStep w j).processedMessages := by
  unfold flagStep
  cases hp : w.page.get? j with
  | none => exact h
  | some c =>
    dsimp only
    simp only [createFlagIcon]
    split_ifs <;> first
      | exact h
      | exact setAdd_mono _ h

theorem flagStep_processed_new {w : World} {x : String} {j : Nat}
    (h : x ∈ (flagStep w j).processedMessages) :
    x ∈ w.processedMessages ∨
      ∃ c, w.page.get? j = some c ∧ x = getMessageId c.msg j ∧
        isMessageBeingEdited c.msg = false := by
  revert h
  unfold flagStep
  cases hp : w.page.get? j with
  | none => exact fun h => Or.inl h
  | some c =>
    dsimp only
    simp only [createFlagIcon]
    split_ifs <;> intro h <;>
      first
        | exact Or.inl h
        | (rcases mem_setAdd h with h1 | h1
           · exact Or.inl h1
           · refine Or.inr ⟨c, rfl, h1, by simp_all⟩)

theorem flagStep_edited {w : World} {j : Nat} {c : Container}
    (hp : w.page.get? j = some c)
    (he : isMessageBeingEdited c.msg = true) :
    flagStep w j = w := by
  unfold flagStep
  rw [hp]
  dsimp only
  rw [if_pos he]



theorem flagStep_eval_processed {w : World} {j : Nat} {c : Container}
    (hp : w.page.get? j = some c)
    (hedit : isMessageBeingEdited c.msg = false)
    (hpc : w.processedMessages.contains (getMessageId c.msg j) = true) :
    flagStep w j = w := by
  unfold flagStep; rw [hp]; dsimp only
  rw [if_neg (by rw [hedit]; exact Bool.false_ne_true), if_pos hpc]

theorem flagStep_eval_flagNearby {w : World} {j : Nat} {c : Container}
    (hp : w.page.get? j = some c)
    (hedit : isMessageBeingEdited c.msg = false)
    (hpc : w.processedMessages.contains (getMessageId c.msg j) = false)
    (hfl : hasFlagNearby c = true) :
    flagStep w j =
      { w with processedMessages := setAdd w.processedMessages (getMessageId c.msg j) } := by
  unfold flagStep; rw [hp]; dsimp only
  rw [if_neg (by rw [hedit]; exact Bool.false_ne_true), if_neg (by rw [hpc]; exact Bool.false_ne_true), if_pos hfl]

theorem flagStep_eval_translated {w : World} {j : Nat} {c : Container}
    (hp : w.page.get? j = some c)
    (hedit : isMessageBeingEdited c.msg = false)
    (hpc : w.processedMessages.contains (getMessageId c.msg j) = false)
    (hfl : hasFlagNearby c = false)
    (htr : mapHas w.messageTranslations (getMessageId c.msg j) = true) :
    flagStep w j =
      { w with processedMessages := setAdd w.processedMessages (getMessageId c.msg j) } := by
  unfold flagStep; rw [hp]; dsimp only
  rw [if_neg (by rw [hedit]; exact Bool.false_ne_true), if_neg (by rw [hpc]; exact Bool.false_ne_true), if_neg (by rw [hfl]; exact Bool.false_ne_true),
    if_pos htr]

theorem flagStep_eval_shouldSkip {w : World} {j : Nat} {c : Container}
    (hp : w.page.get? j = some c)
    (hedit : isMessageBeingEdited c.msg = false)
    (hpc : w.processedMessages.contains (getMessageId c.msg j) = false)
    (hfl : hasFlagNearby c = false)
    (htr : mapHas w.messageTranslations (getMessageId c.msg j) = false)
    (hsk : shouldSkipMessage c.msg = true) :
    flagStep w j = w := by
  unfold flagStep; rw [hp]; dsimp only
  rw [if_neg (by rw [hedit]; exact Bool.false_ne_true), if_neg (by rw [hpc]; exact Bool.false_ne_true), if_neg (by rw [hfl]; exact Bool.false_ne_true),
    if_neg (by rw [htr]; exact Bool.false_ne_true), if_pos hsk]

theorem flagStep_eval_empty {w : World} {j : Nat} {c : Container}
    (hp : w.page.get? j = some c)
    (hedit : isMessageBeingEdited c.msg = false)
    (hpc : w.processedMessages.contains (getMessageId c.msg j) = false)
    (hfl : hasFlagNearby c = false)
    (htr : mapHas w.messageTranslations (getMessageId c.msg j) = false)
    (hsk : shouldSkipMessage c.msg = false)
    (hem : jsTrim (textContent c.msg.node) = "") :
    flagStep w j = w := by
  unfold flagStep; rw [hp]; dsimp only
  rw [if_neg (by rw [hedit]; exact Bool.false_ne_true), if_neg (by rw [hpc]; exact Bool.false_ne_true), if_neg (by rw [hfl]; exact Bool.false_ne_true),
    if_neg (by rw [htr]; exact Bool.false_ne_true), if_neg (by rw [hsk]; exact Bool.false_ne_true), if_pos hem]

theorem flagStep_eval_invisible {w : World} {j : Nat} {c : Container}
    (hp : w.page.get? j = some c)
    (hedit : isMessageBeingEdited c.msg = false)
    (hpc : w.processedMessages.contains (getMessageId c.msg j) = false)
    (hfl : hasFlagNearby c = false)
    (htr : mapHas w.messageTranslations (getMessageId c.msg j) = false)
    (hsk : shouldSkipMessage c.msg = false)
    (hem : jsTrim (textContent c.msg.node) ≠ "")
    (hvis : c.msg.visible = false) :
    flagStep w j = w := by
  unfold flagStep; rw [hp]; dsimp only
  rw [if_neg (by rw [hedit]; exact Bool.false_ne_true), if_neg (by rw [hpc]; exact Bool.false_ne_true), if_neg (by rw [hfl]; exact Bool.false_ne_true),
    if_neg (by rw [htr]; exact Bool.false_ne_true), if_neg (by rw [hsk]; exact Bool.false_ne_true), if_neg hem,
    if_pos (by rw [hvis]; exact Bool.false_ne_true)]

theorem flagStep_eval_noParent {w : World} {j : Nat} {c : Container}
    (hp : w.page.get? j = some c)
    (hedit : isMessageBeingEdited c.msg = false)
    (hpc : w.processedMessages.contains (getMessageId c.msg j) = false)
    (hfl : hasFlagNearby c = false)
    (htr : mapHas w.messageTranslations (getMessageId c.msg j) = false)
    (hsk : shouldSkipMessage c.msg = false)
    (hem : jsTrim (textContent c.msg.node) ≠ "")
    (hvis : c.msg.visible = true)
    (hpar : c.hasParent = false) :
    flagStep w j = w := by
  unfold flagStep; rw [hp]; dsimp only
  rw [if_neg (by rw [hedit]; exact Bool.false_ne_true), if_neg (by rw [hpc]; exact Bool.false_ne_true), if_neg (by rw [hfl]; exact Bool.false_ne_true),
    if_neg (by rw [htr]; exact Bool.false_ne_true), if_neg (by rw [hsk]; exact Bool.false_ne_true), if_neg hem,
    if_neg (not_not_intro hvis)]
  simp only [createFlagIcon, hpar]
  rfl

theorem flagStep_eval_attach {w : World} {j : Nat} {c : Container}
    (hp : w.page.get? j = some c)
    (hedit : isMessageBeingEdited c.msg = false)
    (hpc : w.processedMessages.contains (getMessageId c.msg j) = false)
    (hfl : hasFlagNearby c = false)
    (htr : mapHas w.messageTranslations (getMessageId c.msg j) = false)
    (hsk : shouldSkipMessage c.msg = false)
    (hem : jsTrim (textContent c.msg.node) ≠ "")
    (hvis : c.msg.visible = true)
    (hpar : c.hasParent = true) :
    flagStep w j =
      { w with
        page := w.page.set j { c with attached := .flag .idle :: c.attached },
        processedMessages := setAdd w.processedMessages (getMessageId c.msg j) } := by
  unfold flagStep; rw [hp]; dsimp only
  rw [if_neg (by rw [hedit]; exact Bool.false_ne_true), if_neg (by rw [hpc]; exact Bool.false_ne_true), if_neg (by rw [hfl]; exact Bool.false_ne_true),
    if_neg (by rw [htr]; exact Bool.false_ne_true), if_neg (by rw [hsk]; exact Bool.false_ne_true), if_neg hem,
    if_neg (not_not_intro hvis)]
  simp only [createFlagIcon, hpar]
  rfl



/-- Once container `j` has been processed (state `flagStep u j`), any later
world `v` that still shows the same container `j`, has at least the same
processed ids, and the same translations map, is unchanged by processing
`j` again. -/
theorem flagStep_stable (u v : World) (j : Nat)
    (hpage : v.page.get? j = (flagStep u j).page.get? j)
    (hproc : ∀ x, x ∈ (flagStep u j).processedMessages → x ∈ v.processedMessages)
    (htr : v.messageTranslations = (flagStep u j).messageTranslations) :
    flagStep v j = v := by
  cases hp : u.page.get? j with
  | none =>
    rw [flagStep_none hp] at hpage
    exact flagStep_none (hpage.trans hp)
  | some c =>
    by_cases hedit : isMessageBeingEdited c.msg = true
    · rw [flagStep_edited hp hedit] at hpage
      exact flagStep_edited (hpage.trans hp) hedit
    · have hedit' : isMessageBeingEdited c.msg = false :=
        Bool.eq_false_iff.mpr hedit
      by_cases hpc : u.processedMessages.contains (getMessageId c.msg j) = true
      · have hstep := flagStep_eval_processed hp hedit' hpc
        rw [hstep] at hpage hproc
        have hv : v.page.get? j = some c := hpage.trans hp
        have hin := hproc _ (List.mem_of_elem_eq_true hpc)
        exact flagStep_eval_processed hv hedit' (List.elem_eq_true_of_mem hin)
      · have hpc' : u.processedMessages.contains (getMessageId c.msg j) = false :=
          Bool.eq_false_iff.mpr hpc
        by_cases hfl : hasFlagNearby c = true
        · have hstep := flagStep_eval_flagNearby hp hedit' hpc' hfl
          rw [hstep] at hpage hproc
          have hv : v.page.get? j = some c := hpage.trans hp
          have hin := hproc _ (setAdd_self _ _)
          exact flagStep_eval_processed hv hedit' (List.elem_eq_true_of_mem hin)
        · have hfl' : hasFlagNearby c = false := Bool.eq_false_iff.mpr hfl
          by_cases htru : mapHas u.messageTranslations (getMessageId c.msg j) = true
          · have hstep := flagStep_eval_translated hp hedit' hpc' hfl' htru
            rw [hstep] at hpage hproc
            have hv : v.page.get? j = some c := hpage.trans hp
            have hin := hproc _ (setAdd_self _ _)
            exact flagStep_eval_processed hv hedit' (List.elem_eq_true_of_mem hin)
          · have htru' : mapHas u.messageTranslations (getMessageId c.msg j) = false :=
              Bool.eq_false_iff.mpr htru
            -- from here on, whether the step was a skip or an attach
            by_cases hsk : shouldSkipMessage c.msg = true
            · have hstep := flagStep_eval_shouldSkip hp hedit' hpc' hfl' htru' hsk
              rw [hstep] at hpage hproc htr
              have hv : v.page.get? j = some c := hpage.trans hp
              by_cases hvc : v.processedMessages.contains (getMessageId c.msg j) = true
              · exact flagStep_eval_processed hv hedit' hvc
              · have hvtr : mapHas v.messageTranslations (getMessageId c.msg j) = false := by
                  rw [htr]; exact htru'
                exact flagStep_eval_shouldSkip hv hedit'
                  (Bool.eq_false_iff.mpr hvc) hfl' hvtr hsk
            · have hsk' : shouldSkipMessage c.msg = false := Bool.eq_false_iff.mpr hsk
              by_cases hem : jsTrim (textContent c.msg.node) = ""
              · have hstep := flagStep_eval_empty hp hedit' hpc' hfl' htru' hsk' hem
                rw [hstep] at hpage hproc htr
                have hv : v.page.get? j = some c := hpage.trans hp
                by_cases hvc : v.processedMessages.contains (getMessageId c.msg j) = true
                · exact flagStep_eval_processed hv hedit' hvc
                · have hvtr : mapHas v.messageTranslations (getMessageId c.msg j) = false := by
                    rw [htr]; exact htru'
                  exact flagStep_eval_empty hv hedit'
                    (Bool.eq_false_iff.mpr hvc) hfl' hvtr hsk' hem
              · by_cases hvis : c.msg.visible = true
                · by_cases hpar : c.hasParent = true
                  · -- the attach branch
                    have hstep := flagStep_eval_attach hp hedit' hpc' hfl' htru' hsk' hem hvis hpar
                    rw [hstep] at hpage hproc
                    obtain ⟨hlt, -⟩ := List.get?_eq_some.mp hp
                    have hv : v.page.get? j =
                        some { c with attached := .flag .idle :: c.attached } := by
                      rw [hpage, List.get?_eq_getElem?, List.getElem?_set_eq hlt]
                    have hin := hproc _ (setAdd_self _ _)
                    exact flagStep_eval_processed hv hedit' (List.elem_eq_true_of_mem hin)
                  · have hpar' : c.hasParent = false := Bool.eq_false_iff.mpr hpar
                    have hstep := flagStep_eval_noParent hp hedit' hpc' hfl' htru' hsk' hem hvis hpar'
                    rw [hstep] at hpage hproc htr
                    have hv : v.page.get? j = some c := hpage.trans hp
                    by_cases hvc : v.processedMessages.contains (getMessageId c.msg j) = true
                    · exact flagStep_eval_processed hv hedit' hvc
                    · have hvtr : mapHas v.messageTranslations (getMessageId c.msg j) = false := by
                        rw [htr]; exact htru'
                      exact flagStep_eval_noParent hv hedit'
                        (Bool.eq_false_iff.mpr hvc) hfl' hvtr hsk' hem hvis hpar'
                · have hvis' : c.msg.visible = false := Bool.eq_false_iff.mpr hvis
                  have hstep := flagStep_eval_invisible hp hedit' hpc' hfl' htru' hsk' hem hvis'
                  rw [hstep] at hpage hproc htr
                  have hv : v.page.get? j = some c := hpage.trans hp
                  by_cases hvc : v.processedMessages.contains (getMessageId c.msg j) = true
                  · exact flagStep_eval_processed hv hedit' hvc
                  · have hvtr : mapHas v.messageTranslations (getMessageId c.msg j) = false := by
                      rw [htr]; exact htru'
                    exact flagStep_eval_invisible hv hedit'
                      (Bool.eq_false_iff.mpr hvc) hfl' hvtr hsk' hem hvis'




theorem addFlagIcons_eq_flagPass (w : World) :
    addFlagIcons w = flagPass w (List.range w.page.length) := rfl

theorem flagPass_len (js : List Nat) (w : World) :
    (flagPass w js).page.length = w.page.length := by
  induction js generalizing w with
  | nil => rfl
  | cons j rest ih =>
    simp only [flagPass, List.foldl_cons] at *
    rw [ih, flagStep_len]

theorem flagPass_get_ne (js : List Nat) (w : World) (i : Nat)
    (h : ∀ j ∈ js, j ≠ i) :
    (flagPass w js).page.get? i = w.page.get? i := by
  induction js generalizing w with
  | nil => rfl
  | cons j rest ih =>
    simp only [flagPass, List.foldl_cons] at *
    rw [ih _ (fun x hx => h x (List.mem_cons_of_mem _ hx)),
      flagStep_get_ne (h j (List.mem_cons_self _ _))]

theorem flagPass_msgTransl (js : List Nat) (w : World) :
    (flagPass w js).messageTranslations = w.messageTranslations := by
  induction js generalizing w with
  | nil => rfl
  | cons j rest ih =>
    simp only [flagPass, List.foldl_cons] at *
    rw [ih, flagStep_msgTransl]

theorem flagPass_cache (js : List Nat) (w : World) :
    (flagPass w js).translationCache = w.translationCache := by
  induction js generalizing w with
  | nil => rfl
  | cons j rest ih =>
    simp only [flagPass, List.foldl_cons] at *
    rw [ih, flagStep_cache]

theorem flagPass_msgAt (js : List Nat) (w : World) (k : Nat) :
    msgAt (flagPass w js) k = msgAt w k := by
  induction js generalizing w with
  | nil => rfl
  | cons j rest ih =>
    simp only [flagPass, List.foldl_cons] at *
    rw [ih, flagStep_msgAt]

theorem flagPass_processed_mono (js : List Nat) (w : World) (x : String)
    (h : x ∈ w.processedMessages) :
    x ∈ (flagPass w js).processedMessages := by
  induction js generalizing w with
  | nil => exact h
  | cons j rest ih =>
    simp only [flagPass, List.foldl_cons] at *
    exact ih _ (flagStep_processed_mono _ h)

theorem flagPass_processed_new (js : List Nat) (w : World) (x : String)
    (h : x ∈ (flagPass w js).processedMessages) :
    x ∈ w.processedMessages ∨
      ∃ j ∈ js, ∃ m, msgAt w j = some m ∧ x = getMessageId m j ∧
        isMessageBeingEdited m = false := by
  induction js generalizing w with
  | nil => exact Or.inl h
  | cons j rest ih =>
    simp only [flagPass, List.foldl_cons] at h
    rcases ih _ h with h1 | ⟨j', hj', m, hm, hx, hme⟩
    · rcases flagStep_processed_new h1 with h2 | ⟨c, hc, hx, hme⟩
      · exact Or.inl h2
      · exact Or.inr ⟨j, List.mem_cons_self _ _, c.msg, by unfold msgAt; rw [hc]; rfl, hx, hme⟩
    · rw [flagStep_msgAt] at hm
      exact Or.inr ⟨j', List.mem_cons_of_mem _ hj', m, hm, hx, hme⟩

theorem flagPass_stable_all (js : List Nat) (w : World)
    (h : ∀ j ∈ js, flagStep w j = w) : flagPass w js = w := by
  induction js with
  | nil => rfl
  | cons j rest ih =>
    simp only [flagPass, List.foldl_cons]
    rw [h j (List.mem_cons_self _ _)]
    exact ih fun x hx => h x (List.mem_cons_of_mem _ hx)

theorem range_split {j n : Nat} (h : j < n) :
    ∃ pre post, List.range n = pre ++ j :: post ∧
      (∀ x ∈ pre, x ≠ j) ∧ (∀ x ∈ post, x ≠ j) := by
  refine ⟨List.range j, (List.range (n - j - 1)).map (fun x => j + x + 1), ?_, ?_, ?_⟩
  · have h1 : n = j + (n - j - 1 + 1) := by omega
    conv_lhs => rw [h1]
    rw [List.range_add, List.range_succ_eq_map, List.map_cons, List.map_map]
    rfl
  · intro x hx
    have := List.mem_range.mp hx
    omega
  · intro x hx
    rcases List.mem_map.mp hx with ⟨y, -, rfl⟩
    omega


/-! ## Lemmas about the manual translation path -/


/-! Field lemmas for the manual path's helper operations. -/

theorem setFlagIconState_cache (w : World) (i : Nat) (st : FlagState) :
    (setFlagIconState w i st).translationCache = w.translationCache := by
  unfold setFlagIconState; cases w.page.get? i <;> rfl

theorem setFlagIconState_msgTransl (w : World) (i : Nat) (st : FlagState) :
    (setFlagIconState w i st).messageTranslations = w.messageTranslations := by
  unfold setFlagIconState; cases w.page.get? i <;> rfl

theorem setFlagIconState_processed (w : World) (i : Nat) (st : FlagState) :
    (setFlagIconState w i st).processedMessages = w.processedMessages := by
  unfold setFlagIconState; cases w.page.get? i <;> rfl

theorem setFlagIconState_reqs (w : World) (i : Nat) (st : FlagState) :
    (setFlagIconState w i st).reqs = w.reqs := by
  unfold setFlagIconState; cases w.page.get? i <;> rfl

theorem setFlagIconState_events (w : World) (i : Nat) (st : FlagState) :
    (setFlagIconState w i st).events = w.events := by
  unfold setFlagIconState; cases w.page.get? i <;> rfl

theorem removeTranslationIcon_cache (w : World) (i : Nat) :
    (removeTranslationIcon w i).translationCache = w.translationCache := by
  unfold removeTranslationIcon; cases w.page.get? i <;> rfl

theorem removeTranslationIcon_msgTransl (w : World) (i : Nat) :
    (removeTranslationIcon w i).messageTranslations = w.messageTranslations := by
  unfold removeTranslationIcon; cases w.page.get? i <;> rfl

theorem removeTranslationIcon_processed (w : World) (i : Nat) :
    (removeTranslationIcon w i).processedMessages = w.processedMessages := by
  unfold removeTranslationIcon; cases w.page.get? i <;> rfl

theorem removeTranslationIcon_reqs (w : World) (i : Nat) :
    (removeTranslationIcon w i).reqs = w.reqs := by
  unfold removeTranslationIcon; cases w.page.get? i <;> rfl

theorem removeTranslationIcon_events (w : World) (i : Nat) :
    (removeTranslationIcon w i).events = w.events := by
  unfold removeTranslationIcon; cases w.page.get? i <;> rfl

theorem displaySingleTranslation_cache (w : World) (i : Nat) (t id : String) :
    (displaySingleTranslation w i t id).translationCache = w.translationCache := by
  unfold displaySingleTranslation
  cases w.page.get? i
  · rfl
  · dsimp only; split_ifs <;> rfl

theorem displaySingleTranslation_processed (w : World) (i : Nat) (t id : String) :
    (displaySingleTranslation w i t id).processedMessages = w.processedMessages := by
  unfold displaySingleTranslation
  cases w.page.get? i
  · rfl
  · dsimp only; split_ifs <;> rfl

theorem displaySingleTranslation_reqs (w : World) (i : Nat) (t id : String) :
    (displaySingleTranslation w i t id).reqs = w.reqs := by
  unfold displaySingleTranslation
  cases w.page.get? i
  · rfl
  · dsimp only; split_ifs <;> rfl

theorem displaySingleTranslation_events (w : World) (i : Nat) (t id : String) :
    (displaySingleTranslation w i t id).events = w.events := by
  unfold displaySingleTranslation
  cases w.page.get? i
  · rfl
  · dsimp only; split_ifs <;> rfl

theorem issueRequest_cache (w : World) (t : String) :
    (issueRequest w t).translationCache = w.translationCache := rfl

theorem issueRequest_msgTransl (w : World) (t : String) :
    (issueRequest w t).messageTranslations = w.messageTranslations := rfl

theorem issueRequest_processed (w : World) (t : String) :
    (issueRequest w t).processedMessages = w.processedMessages := rfl

theorem issueRequest_page (w : World) (t : String) :
    (issueRequest w t).page = w.page := rfl

theorem issueRequest_reqs (w : World) (t : String) :
    (issueRequest w t).reqs = w.reqs ++ [t] := rfl

theorem setFlagIconState_msgAt (w : World) (i : Nat) (st : FlagState) (k : Nat) :
    msgAt (setFlagIconState w i st) k = msgAt w k := by
  unfold setFlagIconState
  cases hp : w.page.get? i with
  | none => rfl
  | some c =>
    by_cases hk : i = k
    · subst hk
      obtain ⟨hlt, -⟩ := List.get?_eq_some.mp hp
      have hp' : w.page[i]? = some c := by
        rw [← List.get?_eq_getElem?]; exact hp
      simp [msgAt, List.get?_eq_getElem?, List.getElem?_set_eq hlt, hp']
    · simp [msgAt, List.get?_eq_getElem?, List.getElem?_set_ne hk]

theorem removeTranslationIcon_msgAt (w : World) (i k : Nat) :
    msgAt (removeTranslationIcon w i) k = msgAt w k := by
  unfold removeTranslationIcon
  cases hp : w.page.get? i with
  | none => rfl
  | some c =>
    by_cases hk : i = k
    · subst hk
      obtain ⟨hlt, -⟩ := List.get?_eq_some.mp hp
      have hp' : w.page[i]? = some c := by
        rw [← List.get?_eq_getElem?]; exact hp
      simp [msgAt, List.get?_eq_getElem?, List.getElem?_set_eq hlt, hp']
    · simp [msgAt, List.get?_eq_getElem?, List.getElem?_set_ne hk]

theorem displaySingleTranslation_msgAt (w : World) (i : Nat) (t id : String)
    (k : Nat) : msgAt (displaySingleTranslation w i t id) k = msgAt w k := by
  unfold displaySingleTranslation
  cases hp : w.page.get? i with
  | none => rfl
  | some c =>
    dsimp only
    split_ifs <;> try rfl
    by_cases hk : i = k
    · subst hk
      obtain ⟨hlt, -⟩ := List.get?_eq_some.mp hp
      have hp' : w.page[i]? = some c := by
        rw [← List.get?_eq_getElem?]; exact hp
      simp [msgAt, List.get?_eq_getElem?, List.getElem?_set_eq hlt, hp']
    · simp [msgAt, List.get?_eq_getElem?, List.getElem?_set_ne hk]

theorem issueRequest_msgAt (w : World) (t : String) (k : Nat) :
    msgAt (issueRequest w t) k = msgAt w k := rfl



theorem tsmPhase1_cache (w : World) (i : Nat) :
    (translateSingleMessagePhase1 w i).1.translationCache = w.translationCache := by
  unfold translateSingleMessagePhase1
  cases hp : w.page.get? i with
  | none => rfl
  | some c =>
    dsimp only
    split_ifs <;>
      simp only [removeTranslationIcon_cache, displaySingleTranslation_cache,
        setFlagIconState_cache, issueRequest_cache]

theorem tsmPhase1_msgAt (w : World) (i k : Nat) :
    msgAt (translateSingleMessagePhase1 w i).1 k = msgAt w k := by
  unfold translateSingleMessagePhase1
  cases hp : w.page.get? i with
  | none => rfl
  | some c =>
    dsimp only
    split_ifs <;>
      simp only [removeTranslationIcon_msgAt, displaySingleTranslation_msgAt,
        setFlagIconState_msgAt, issueRequest_msgAt]

theorem tsmPhase1_cases (w : World) (i : Nat) :
    ((translateSingleMessagePhase1 w i).2 = none ∧
     (translateSingleMessagePhase1 w i).1.reqs = w.reqs) ∨
    (∃ c, w.page.get? i = some c ∧
      extractCleanText c.msg.node ≠ "" ∧
      mapHas w.translationCache (extractCleanText c.msg.node) = false ∧
      (translateSingleMessagePhase1 w i).2 =
        some ⟨i, getMessageId c.msg i, extractCleanText c.msg.node, w.reqs.length⟩ ∧
      (translateSingleMessagePhase1 w i).1.reqs =
        w.reqs ++ [extractCleanText c.msg.node]) := by
  unfold translateSingleMessagePhase1
  cases hp : w.page.get? i with
  | none => exact Or.inl ⟨rfl, rfl⟩
  | some c =>
    dsimp only
    split_ifs with h1 h2 h3
    · exact Or.inl ⟨rfl, removeTranslationIcon_reqs _ _⟩
    · exact Or.inl ⟨rfl, by
        simp only [setFlagIconState_reqs]⟩
    · exact Or.inl ⟨rfl, by
        simp only [removeTranslationIcon_reqs, displaySingleTranslation_reqs,
          setFlagIconState_reqs]⟩
    · rw [setFlagIconState_cache] at h3
      refine Or.inr ⟨c, rfl, h2, Bool.eq_false_iff.mpr h3, ?_, ?_⟩
      · simp only [setFlagIconState_reqs]
      · simp only [issueRequest_reqs, setFlagIconState_reqs]

theorem tsm_eq_none (api : Nat → ApiResp) (w : World) (i : Nat)
    (h : (translateSingleMessagePhase1 w i).2 = none) :
    translateSingleMessage api w i = (translateSingleMessagePhase1 w i).1 := by
  unfold translateSingleMessage
  rcases hp : translateSingleMessagePhase1 w i with ⟨w', o⟩
  rw [hp] at h
  simp only at h
  subst h
  rfl

theorem tsm_eq_some (api : Nat → ApiResp) (w : World) (i : Nat) (p : PendingReq)
    (h : (translateSingleMessagePhase1 w i).2 = some p) :
    translateSingleMessage api w i =
      translateSingleMessagePhase2 api (translateSingleMessagePhase1 w i).1 p := by
  unfold translateSingleMessage
  rcases hp : translateSingleMessagePhase1 w i with ⟨w', o⟩
  rw [hp] at h
  simp only at h
  subst h
  rfl

theorem tsmPhase2_success (api : Nat → ApiResp) (w : World) (p : PendingReq)
    (s : String) (h : translateTextOutcome (api p.reqIdx) = .success s) :
    (translateSingleMessagePhase2 api w p).translationCache =
      mapSet w.translationCache p.extracted s ∧
    (translateSingleMessagePhase2 api w p).reqs = w.reqs := by
  unfold translateSingleMessagePhase2
  rw [h]
  exact ⟨by simp only [removeTranslationIcon_cache, displaySingleTranslation_cache],
    by simp only [removeTranslationIcon_reqs, displaySingleTranslation_reqs]⟩

theorem tsmPhase2_failure (api : Nat → ApiResp) (w : World) (p : PendingReq)
    (h : translateTextOutcome (api p.reqIdx) = .failure) :
    translateSingleMessagePhase2 api w p =
      setFlagIconState w p.containerIdx .errored := by
  unfold translateSingleMessagePhase2
  rw [h]

theorem tsmPhase2_msgAt (api : Nat → ApiResp) (w : World) (p : PendingReq)
    (k : Nat) : msgAt (translateSingleMessagePhase2 api w p) k = msgAt w k := by
  unfold translateSingleMessagePhase2
  cases translateTextOutcome (api p.reqIdx) <;>
    simp only [removeTranslationIcon_msgAt, displaySingleTranslation_msgAt,
      setFlagIconState_msgAt] <;> rfl

theorem tsm_msgAt (api : Nat → ApiResp) (w : World) (i k : Nat) :
    msgAt (translateSingleMessage api w i) k = msgAt w k := by
  cases ho : (translateSingleMessagePhase1 w i).2 with
  | none => rw [tsm_eq_none api w i ho, tsmPhase1_msgAt]
  | some p =>
    rw [tsm_eq_some api w i p ho, tsmPhase2_msgAt, tsmPhase1_msgAt]

theorem tsmPhase2_reqs (api : Nat → ApiResp) (w : World) (p : PendingReq) :
    (translateSingleMessagePhase2 api w p).reqs = w.reqs := by
  unfold translateSingleMessagePhase2
  cases translateTextOutcome (api p.reqIdx) <;>
    simp only [removeTranslationIcon_reqs, displaySingleTranslation_reqs,
      setFlagIconState_reqs]

theorem tsmPhase2_cache_mono {api : Nat → ApiResp} {w : World} {p : PendingReq}
    {k : String} (h : mapHas w.translationCache k = true) :
    mapHas (translateSingleMessagePhase2 api w p).translationCache k = true := by
  unfold translateSingleMessagePhase2
  cases translateTextOutcome (api p.reqIdx) with
  | success s =>
    simp only [removeTranslationIcon_cache, displaySingleTranslation_cache]
    exact mapHas_mapSet_mono _ _ h
  | failure => simpa only [setFlagIconState_cache] using h

theorem tsm_cache_mono (api : Nat → ApiResp) (w : World) (i : Nat) (k : String)
    (h : mapHas w.translationCache k = true) :
    mapHas (translateSingleMessage api w i).translationCache k = true := by
  cases ho : (translateSingleMessagePhase1 w i).2 with
  | none => rw [tsm_eq_none api w i ho, tsmPhase1_cache]; exact h
  | some p =>
    rw [tsm_eq_some api w i p ho]
    exact tsmPhase2_cache_mono (by rw [tsmPhase1_cache]; exact h)


/-! ## Lemmas about the automatic pass -/


theorem displayTranslation_cache (w : World) (i : Nat) (t id : String) :
    (displayTranslation w i t id).translationCache = w.translationCache := by
  unfold displayTranslation
  cases w.page.get? i
  · rfl
  · dsimp only; split_ifs <;> rfl

theorem displayTranslation_events (w : World) (i : Nat) (t id : String) :
    (displayTranslation w i t id).events = w.events := by
  unfold displayTranslation
  cases w.page.get? i
  · rfl
  · dsimp only; split_ifs <;> rfl

theorem displayTranslation_reqs (w : World) (i : Nat) (t id : String) :
    (displayTranslation w i t id).reqs = w.reqs := by
  unfold displayTranslation
  cases w.page.get? i
  · rfl
  · dsimp only; split_ifs <;> rfl

theorem discoverStep_cache (st : World × List String × List TransItem)
    (p : Nat × Container) :
    (discoverStep st p).1.translationCache = st.1.translationCache := by
  unfold discoverStep
  rcases st with ⟨w, seen, acc⟩
  dsimp only
  split_ifs <;> simp only [displayTranslation_cache]

theorem discoverStep_events (st : World × List String × List TransItem)
    (p : Nat × Container) :
    (discoverStep st p).1.events = st.1.events := by
  unfold discoverStep
  rcases st with ⟨w, seen, acc⟩
  dsimp only
  split_ifs <;> simp only [displayTranslation_events]

theorem discoverStep_reqs (st : World × List String × List TransItem)
    (p : Nat × Container) :
    (discoverStep st p).1.reqs = st.1.reqs := by
  unfold discoverStep
  rcases st with ⟨w, seen, acc⟩
  dsimp only
  split_ifs <;> simp only [displayTranslation_reqs]

theorem discoverFold_cache (elig : List (Nat × Container))
    (st : World × List String × List TransItem) :
    ((elig.foldl discoverStep st).1).translationCache = st.1.translationCache := by
  induction elig generalizing st with
  | nil => rfl
  | cons p rest ih =>
    rw [List.foldl_cons, ih, discoverStep_cache]

theorem discoverFold_events (elig : List (Nat × Container))
    (st : World × List String × List TransItem) :
    ((elig.foldl discoverStep st).1).events = st.1.events := by
  induction elig generalizing st with
  | nil => rfl
  | cons p rest ih =>
    rw [List.foldl_cons, ih, discoverStep_events]

theorem discover_cache (w : World) (elig : List (Nat × Container)) :
    (discover w elig).1.translationCache = w.translationCache := by
  unfold discover
  exact discoverFold_cache elig _

theorem discover_events (w : World) (elig : List (Nat × Container)) :
    (discover w elig).1.events = w.events := by
  unfold discover
  exact discoverFold_events elig _

theorem checkChannelChange_cache (w : World) (pathname : String)
    (titleText : Option String) :
    (checkChannelChange w pathname titleText).2.translationCache =
      w.translationCache := by
  unfold checkChannelChange
  dsimp only
  split_ifs <;> rfl

theorem checkChannelChange_events (w : World) (pathname : String)
    (titleText : Option String) :
    (checkChannelChange w pathname titleText).2.events = w.events := by
  unfold checkChannelChange
  dsimp only
  split_ifs <;> rfl

theorem transStep_cache_mono {api : Nat → ApiResp} {w : World}
    {p : Nat × TransItem} {k : String} (h : mapHas w.translationCache k = true) :
    mapHas (transStep api w p).translationCache k = true := by
  unfold transStep
  rcases p with ⟨i, item⟩
  dsimp only
  cases api w.reqs.length with
  | sendError => dsimp only; simpa only [issueRequest_cache] using h
  | parseError => dsimp only; simpa only [issueRequest_cache] using h
  | noResponse =>
    dsimp only
    simp only [issueRequest_cache]
    exact mapHas_mapSet_mono _ _ h
  | missing =>
    dsimp only
    simp only [issueRequest_cache]
    exact mapHas_mapSet_mono _ _ h
  | ok s =>
    dsimp only
    split_ifs
    · simp only [issueRequest_cache]
      exact mapHas_mapSet_mono _ _ h
    · cases hg : ((issueRequest w item.text).page.get? item.elementIdx) with
      | none =>
        simp only [hg]
        simp only [issueRequest_cache]
        exact mapHas_mapSet_mono _ _ h
      | some c =>
        simp only [hg]
        split_ifs <;>
          simp only [displayTranslation_cache, issueRequest_cache] <;>
          exact mapHas_mapSet_mono _ _ h

theorem transLoop_cache_mono (api : Nat → ApiResp)
    (items : List (Nat × TransItem)) (w : World) (k : String)
    (h : mapHas w.translationCache k = true) :
    mapHas (transLoop api w items).translationCache k = true := by
  induction items generalizing w with
  | nil => exact h
  | cons p rest ih =>
    simp only [transLoop, List.foldl_cons] at *
    exact ih _ (transStep_cache_mono h)



theorem delayScan_append (a b : List Ev) (s : Bool) :
    delayScan (a ++ b) s =
      (delayScan a s).bind (fun s2 => delayScan b s2) := by
  induction a generalizing s with
  | nil => simp [delayScan]
  | cons e rest ih =>
    cases e with
    | evReq t =>
      simp only [List.cons_append, delayScan]
      by_cases hs : s
      · simp [hs]
      · simp [hs, ih]
    | evDelay ms =>
      simp only [List.cons_append, delayScan]
      exact ih _

theorem transStep_events_benign {api : Nat → ApiResp} {w : World}
    {p : Nat × TransItem}
    (h1 : api w.reqs.length ≠ ApiResp.sendError)
    (h2 : api w.reqs.length ≠ ApiResp.parseError) :
    (transStep api w p).events =
      w.events ++ [.evReq p.2.text, .evDelay API_DELAY_MS] := by
  unfold transStep
  rcases p with ⟨i, item⟩
  dsimp only
  cases ha : api w.reqs.length with
  | sendError => exact absurd ha h1
  | parseError => exact absurd ha h2
  | noResponse => dsimp only [issueRequest]; simp
  | missing => dsimp only [issueRequest]; simp
  | ok s =>
    dsimp only
    split_ifs
    · dsimp only [issueRequest]; simp
    · cases hg : ((issueRequest w item.text).page.get? item.elementIdx) with
      | none =>
        simp only [hg]
        dsimp only [issueRequest]; simp
      | some c =>
        simp only [hg]
        split_ifs <;>
          simp [displayTranslation_events, issueRequest]

theorem transLoop_delaySpaced (api : Nat → ApiResp)
    (items : List (Nat × TransItem)) (w : World)
    (hapi : ∀ n, api n ≠ ApiResp.sendError ∧ api n ≠ ApiResp.parseError)
    (hscan : delayScan w.events false = some false) :
    delayScan (transLoop api w items).events false = some false := by
  induction items generalizing w with
  | nil => exact hscan
  | cons p rest ih =>
    simp only [transLoop, List.foldl_cons] at *
    apply ih
    rw [transStep_events_benign (hapi w.reqs.length).1 (hapi w.reqs.length).2,
      delayScan_append, hscan]
    rfl



theorem addFlagIcons_cache (w : World) :
    (addFlagIcons w).translationCache = w.translationCache := by
  rw [addFlagIcons_eq_flagPass]; exact flagPass_cache _ _

theorem processMessages_cache_mono (api : Nat → ApiResp) (manual : Bool)
    (pathname : String) (titleText : Option String) (w : World) (k : String)
    (h : mapHas w.translationCache k = true) :
    mapHas (processMessages api manual pathname titleText w).translationCache k
      = true := by
  unfold processMessages
  dsimp only
  split_ifs
  all_goals first
    | (simp only [stopProcessing]; exact h)
    | exact h
    | (rw [addFlagIcons_cache, checkChannelChange_cache]; exact h)
    | (rw [checkChannelChange_cache]; exact h)
    | (rw [discover_cache, checkChannelChange_cache]; exact h)
    | (apply transLoop_cache_mono
       rw [discover_cache, checkChannelChange_cache]; exact h)

theorem processMessages_delaySpaced (api : Nat → ApiResp)
    (pathname : String) (titleText : Option String) (w : World)
    (hapi : ∀ n, api n ≠ ApiResp.sendError ∧ api n ≠ ApiResp.parseError)
    (hev : w.events = []) :
    interRequestDelayEnforced
      (processMessages api false pathname titleText w).events = true := by
  unfold processMessages interRequestDelayEnforced
  dsimp only
  split_ifs
  all_goals first
    | (simp only [stopProcessing, hev]; rfl)
    | (rw [hev]; rfl)
    | (rw [checkChannelChange_events, hev]; rfl)
    | (rw [discover_events, checkChannelChange_events, hev]; rfl)
    | (rw [transLoop_delaySpaced api _ _ hapi
        (by rw [discover_events, checkChannelChange_events, hev]; rfl)]
       rfl)
    | simp_all


/-! ## Claim theorems -/


/-! ## Claim C1 -/

/-- Counterexample to claim C1.  In automatic mode a failed request (the
background delivers no response body) is written into the global cache as
the sentinel `ERROR_0`; the next discovery pass finds the text in the
cache and renders the sentinel under the message as though it were a
translation. -/
theorem c1_failure_sentinel_served_counterexample :
    let w0 := baseW [mkMsg "chat-messages-100-201" "Hello there"]
    let api : Nat → ApiResp := fun _ => .noResponse
    let w1 := processMessages api false basePath none w0
    let w2 := processMessages api false basePath none w1
    mapGet w1.translationCache "Hello there" = some "ERROR_0" ∧
    (w2.page.get? 0).map Container.attached = some [Att.transl "ERROR_0"] :=
  ⟨rfl, rfl⟩

/-- Claim C1, amended.  A failed translation attempt is surfaced as a
typed error and writes nothing into the cache in the manual flag-click
path; in the automatic path, however, a received-but-empty response IS
written into the global cache as the positive-looking sentinel
`ERROR_i`, which later lookups serve (the counterexample shows it being
displayed). -/
theorem c1_failure_caching_amended :
    (∀ (api : Nat → ApiResp) (w : World) (i : Nat),
      translateTextOutcome (api w.reqs.length) = TransResult.failure →
      (translateSingleMessage api w i).translationCache = w.translationCache) ∧
    (∀ (api : Nat → ApiResp) (w : World) (i : Nat) (item : TransItem),
      api w.reqs.length = ApiResp.noResponse →
      (transStep api w (i, item)).translationCache =
        mapSet w.translationCache item.text ("ERROR_" ++ toString i)) := by
  constructor
  · intro api w i hfail
    rcases tsmPhase1_cases w i with ⟨hnone, -⟩ | ⟨c, hc, hne, hmiss, hpend, hreqs⟩
    · rw [tsm_eq_none api w i hnone, tsmPhase1_cache]
    · rw [tsm_eq_some api w i _ hpend,
        tsmPhase2_failure api _ _ hfail, setFlagIconState_cache, tsmPhase1_cache]
  · intro api w i item hresp
    unfold transStep
    dsimp only
    rw [hresp]
    dsimp only
    rw [issueRequest_cache]

/-- Witness for the amended C1 at concrete inputs: a failing manual click
leaves the cache empty, and a failing automatic iteration caches the
sentinel. -/
theorem c1_failure_caching_amended_witness :
    (let w0 := baseW [mkFlagged "chat-messages-100-201" "Ahoj svete"]
     let api : Nat → ApiResp := fun _ => .noResponse
     (translateSingleMessage api w0 0).translationCache = w0.translationCache) ∧
    (let w0 := baseW [mkMsg "chat-messages-100-201" "Hello there"]
     let api : Nat → ApiResp := fun _ => .noResponse
     (transStep api w0 (0, ⟨0, "Hello there", "chat-messages-100-201"⟩)).translationCache =
       mapSet w0.translationCache "Hello there" "ERROR_0") :=
  ⟨c1_failure_caching_amended.1 _ _ 0 (by decide),
   c1_failure_caching_amended.2 _ _ 0 _ rfl⟩

/-! ## Claim C2 -/

/-- Counterexample to claim C2.  Two distinct messages with the identical
extracted text `Hello all` both pass the cache check of the same
discovery pass; the first response binds the text to `X`, the second
response rebinds the same key to `Y` later in the very same run. -/
theorem c2_cache_rebinding_counterexample :
    let w0 := baseW [mkMsg "chat-messages-100-201" "Hello all",
                     mkMsg "chat-messages-100-204" "Hello all"]
    let api : Nat → ApiResp := fun n => if n = 0 then .ok "X" else .ok "Y"
    let d := discover w0 (msgFilter w0)
    let mid := transLoop api d.1 (d.2.enum.take 1)
    let fin := transLoop api d.1 d.2.enum
    mapGet mid.translationCache "Hello all" = some "X" ∧
    mapGet fin.translationCache "Hello all" = some "Y" ∧
    fin = transLoop api mid (d.2.enum.drop 1) ∧
    processMessages api false basePath none w0 = fin :=
  ⟨rfl, rfl, rfl, rfl⟩

/-- Claim C2, amended.  The cache is append-only in the sense that no
operation ever removes a key — every cached key survives any
`processMessages` cycle and any manual click — and scope rotation leaves
the cache map exactly unchanged; but an existing key CAN be rebound to a
different value when two messages with identical extracted text are
handled in the same discovery pass (the counterexample). -/
theorem c2_cache_no_removal_amended (api : Nat → ApiResp)
    (manualTranslation : Bool) (pathname : String) (titleText : Option String)
    (w : World) (i : Nat) (k : String)
    (hk : mapHas w.translationCache k = true) :
    mapHas (processMessages api manualTranslation pathname titleText
      w).translationCache k = true ∧
    mapHas (translateSingleMessage api w i).translationCache k = true ∧
    (checkChannelChange w pathname titleText).2.translationCache =
      w.translationCache :=
  ⟨processMessages_cache_mono api manualTranslation pathname titleText w k hk,
   tsm_cache_mono api w i k hk,
   checkChannelChange_cache w pathname titleText⟩

/-- Witness for the amended C2 at a concrete cached key. -/
theorem c2_cache_no_removal_amended_witness :
    (let w0 := { baseW [mkMsg "chat-messages-100-201" "Hello there"] with
                   translationCache := [("Hello there", "Ahoj ty")] }
     let api : Nat → ApiResp := fun _ => .noResponse
     mapHas w0.translationCache "Hello there" = true ∧
     (mapHas (processMessages api false basePath none w0).translationCache
        "Hello there" = true ∧
      mapHas (translateSingleMessage api w0 0).translationCache
        "Hello there" = true ∧
      (checkChannelChange w0 basePath none).2.translationCache =
        w0.translationCache)) :=
  ⟨by decide, c2_cache_no_removal_amended _ false basePath none _ 0 _ (by decide)⟩

/-! ## Claim C3 -/

/-- Counterexample to claim C3.  Two flag clicks for distinct messages
with the same uncached text `Ahoj svete`: the first handler runs to its
suspension point (its request is outstanding), then the second handler
runs to its own suspension point — legal single-threaded interleaving —
and a second outbound request for the same text is issued while the
first is still outstanding.  No coalescing happens. -/
theorem c3_duplicate_inflight_counterexample :
    let w0 := baseW [mkFlagged "chat-messages-100-201" "Ahoj svete",
                     mkFlagged "chat-messages-100-204" "Ahoj svete"]
    let s1 := translateSingleMessagePhase1 w0 0
    let s2 := translateSingleMessagePhase1 s1.1 1
    mapHas w0.translationCache "Ahoj svete" = false ∧
    s1.2.isSome = true ∧ s2.2.isSome = true ∧
    s2.1.reqs = ["Ahoj svete", "Ahoj svete"] :=
  ⟨rfl, rfl, rfl, rfl⟩

/-- Claim C3, amended.  There is no single-flight coalescing: a manual
translation issues its outbound request exactly on the basis of its own
cache check — whenever the message is not yet translated, extraction is
non-empty, and the text misses the cache at that moment, the handler
sends a request (even if an identical request is already outstanding, as
the counterexample shows). -/
theorem c3_no_coalescing_amended (w : World) (i : Nat) (c : Container)
    (hc : w.page.get? i = some c)
    (hnt : mapHas w.messageTranslations (getMessageId c.msg i) = false)
    (hx : extractCleanText c.msg.node ≠ "")
    (hmiss : mapHas w.translationCache (extractCleanText c.msg.node) = false) :
    (translateSingleMessagePhase1 w i).1.reqs =
      w.reqs ++ [extractCleanText c.msg.node] ∧
    (translateSingleMessagePhase1 w i).2 =
      some ⟨i, getMessageId c.msg i, extractCleanText c.msg.node,
        w.reqs.length⟩ := by
  unfold translateSingleMessagePhase1
  rw [hc]
  dsimp only
  rw [if_neg (by rw [hnt]; exact Bool.false_ne_true), if_neg hx,
    if_neg (by rw [setFlagIconState_cache, hmiss]; exact Bool.false_ne_true)]
  constructor
  · simp only [issueRequest_reqs, setFlagIconState_reqs]
  · simp only [setFlagIconState_reqs]

/-- Witness for the amended C3 at a concrete uncached text. -/
theorem c3_no_coalescing_amended_witness :
    let w0 := baseW [mkFlagged "chat-messages-100-201" "Ahoj svete"]
    (translateSingleMessagePhase1 w0 0).1.reqs = [] ++ ["Ahoj svete"] ∧
    (translateSingleMessagePhase1 w0 0).2 =
      some ⟨0, "chat-messages-100-201", "Ahoj svete", 0⟩ := by
  have h := c3_no_coalescing_amended
    (baseW [mkFlagged "chat-messages-100-201" "Ahoj svete"]) 0
    (mkFlagged "chat-messages-100-201" "Ahoj svete") rfl (by decide)
    (by decide) (by decide)
  exact h



/-! ## Claim C4 -/

/-- Counterexample to claim C4.  A manual flag click on a message of a
generation whose context has been cancelled (superseded) still issues an
outbound request, writes the shared cache, and mutates the DOM:
`translateSingleMessage` never consults the cancelled bit. -/
theorem c4_cancelled_manual_click_counterexample :
    let w0 := { baseW [mkFlagged "chat-messages-100-201" "Ahoj svete"] with
                  cancelled := true }
    let api : Nat → ApiResp := fun _ => .ok "Dobry"
    w0.cancelled = true ∧
    (translateSingleMessage api w0 0).reqs = ["Ahoj svete"] ∧
    mapGet (translateSingleMessage api w0 0).translationCache "Ahoj svete" =
      some "Dobry" ∧
    ((translateSingleMessage api w0 0).page.get? 0).map Container.attached =
      some [Att.transl "Dobry"] :=
  ⟨rfl, rfl, rfl, rfl⟩

/-- Claim C4, amended.  Cancellation is checked only at the top of each
scheduled `processMessages` cycle: a cancelled generation's cycle halts
its interval and performs no other mutation, no DOM change, and no
request — but the check is not repeated after suspension points, and
manual flag clicks (the counterexample) bypass it entirely. -/
theorem c4_cancellation_cycle_top_amended (api : Nat → ApiResp)
    (manualTranslation : Bool) (pathname : String) (titleText : Option String)
    (w : World) (hc : w.cancelled = true) :
    processMessages api manualTranslation pathname titleText w =
      { w with processingInterval := false } := by
  unfold processMessages
  rw [if_pos hc]
  rfl

/-- Witness for the amended C4 at a concrete cancelled state. -/
theorem c4_cancellation_cycle_top_amended_witness :
    (let w0 := { baseW [mkMsg "chat-messages-100-201" "Hello there"] with
                   cancelled := true }
     let api : Nat → ApiResp := fun _ => .ok "Dobry"
     w0.cancelled = true ∧
     processMessages api false basePath none w0 =
       { w0 with processingInterval := false }) :=
  ⟨rfl, c4_cancellation_cycle_top_amended _ false basePath none _ rfl⟩

/-! ## Claim C5 -/

/-- Counterexample to claim C5.  Two sequential manual flag clicks issue
two outbound requests with no awaited delay anywhere in the trace: the
minimum inter-request spacing is not enforced system-wide (the manual
path never delays). -/
theorem c5_manual_no_delay_counterexample :
    let w0 := baseW [mkFlagged "chat-messages-100-201" "Ahoj svete",
                     mkFlagged "chat-messages-100-204" "Dobry den"]
    let api : Nat → ApiResp := fun _ => .ok "Hi there"
    let w2 := translateSingleMessage api (translateSingleMessage api w0 0) 1
    w2.reqs = ["Ahoj svete", "Dobry den"] ∧
    interRequestDelayEnforced w2.events = false :=
  ⟨rfl, rfl⟩

/-- Claim C5, amended.  The `API_DELAY_MS` spacing is enforced only by
the automatic processing loop — a property of that caller's loop body,
awaited after each request whose send is delivered and whose response
parses (a rejected send or a parse failure `continue`s past the delay) —
while manual flag-click requests are issued with no delay at all (the
counterexample). -/
theorem c5_auto_loop_delay_amended (api : Nat → ApiResp)
    (pathname : String) (titleText : Option String) (w : World)
    (hapi : ∀ n, api n ≠ ApiResp.sendError ∧ api n ≠ ApiResp.parseError)
    (hev : w.events = []) :
    interRequestDelayEnforced
      (processMessages api false pathname titleText w).events = true :=
  processMessages_delaySpaced api pathname titleText w hapi hev

/-- Witness for the amended C5 at a concrete automatic pass. -/
theorem c5_auto_loop_delay_amended_witness :
    (let w0 := baseW [mkMsg "chat-messages-100-201" "Ahoj svete",
                      mkMsg "chat-messages-100-204" "Dobry den"]
     let api : Nat → ApiResp := fun _ => .ok "Hi there"
     w0.events = [] ∧
     interRequestDelayEnforced
       (processMessages api false basePath none w0).events = true) :=
  ⟨rfl, c5_auto_loop_delay_amended _ basePath none _
    (fun n => ⟨by decide, by decide⟩) rfl⟩



/-! ## Claim C6 -/

/-- Claim C6 (confirmed).  When the backend answers every request with a
non-blank translation, two sequential manual translations whose messages
extract to the same text `T` issue at most one outbound request for `T`
between them: the successful response is cached (before being returned),
so the second call is served from the cache with no network call. -/
theorem c6_translate_twice_single_request (api : Nat → ApiResp) (w : World)
    (i j : Nat) (ci cj : Container) (T : String)
    (hci : w.page.get? i = some ci) (hcj : w.page.get? j = some cj)
    (hti : extractCleanText ci.msg.node = T)
    (htj : extractCleanText cj.msg.node = T)
    (hapi : ∀ n, ∃ s, translateTextOutcome (api n) = TransResult.success s) :
    (translateSingleMessage api (translateSingleMessage api w i) j).reqs.count T
      ≤ w.reqs.count T + 1 := by
  have key1 :
      ((translateSingleMessage api w i).reqs.count T = w.reqs.count T ∧
       (translateSingleMessage api w i).translationCache = w.translationCache) ∨
      ((translateSingleMessage api w i).reqs.count T = w.reqs.count T + 1 ∧
       mapHas (translateSingleMessage api w i).translationCache T = true) := by
    rcases tsmPhase1_cases w i with ⟨hnone, hreqs⟩ | ⟨c, hc, hne, hmiss, hpend, hreqs⟩
    · left
      rw [tsm_eq_none api w i hnone, hreqs, tsmPhase1_cache]
      exact ⟨rfl, rfl⟩
    · right
      have hcc : c = ci := by rw [hci] at hc; exact (Option.some.inj hc).symm
      rw [hcc, hti] at hpend hreqs
      rw [tsm_eq_some api w i _ hpend]
      obtain ⟨s, hs⟩ := hapi w.reqs.length
      have h2 := tsmPhase2_success api (translateSingleMessagePhase1 w i).1
        ⟨i, getMessageId ci.msg i, T, w.reqs.length⟩ s hs
      constructor
      · rw [h2.2, hreqs]
        simp [List.count_append]
      · rw [h2.1, tsmPhase1_cache]
        exact mapHas_mapSet_self _ _ _
  set w1 := translateSingleMessage api w i with hw1
  rcases tsmPhase1_cases w1 j with ⟨hnone, hreqs⟩ | ⟨c', hc', hne, hmiss, hpend, hreqs⟩
  · rw [tsm_eq_none api w1 j hnone, hreqs]
    rcases key1 with ⟨h1, -⟩ | ⟨h1, -⟩ <;> omega
  · have hmsg : c'.msg = cj.msg := by
      have hstab := tsm_msgAt api w i j
      rw [← hw1] at hstab
      unfold msgAt at hstab
      rw [hc', hcj] at hstab
      exact Option.some.inj hstab
    have htj' : extractCleanText c'.msg.node = T := by rw [hmsg]; exact htj
    rw [htj'] at hmiss hpend hreqs
    rcases key1 with ⟨h1, hcache⟩ | ⟨h1, hcache⟩
    · rw [tsm_eq_some api w1 j _ hpend, tsmPhase2_reqs, hreqs]
      simp [List.count_append]
      omega
    · rw [hcache] at hmiss
      simp at hmiss

/-- Witness for C6: two clicks on distinct messages with the same text
issue one request in total. -/
theorem c6_translate_twice_single_request_witness :
    (let w0 := baseW [mkFlagged "chat-messages-100-201" "Ahoj svete",
                      mkFlagged "chat-messages-100-204" "Ahoj svete"]
     let api : Nat → ApiResp := fun _ => .ok "Dobry"
     (translateSingleMessage api (translateSingleMessage api w0 0) 1).reqs.count
        "Ahoj svete" ≤ w0.reqs.count "Ahoj svete" + 1) ∧
    extractCleanText
      (mkFlagged "chat-messages-100-201" "Ahoj svete").msg.node = "Ahoj svete" :=
  ⟨c6_translate_twice_single_request _ _ 0 1 _ _ "Ahoj svete" rfl rfl rfl rfl
     (fun _ => ⟨"Dobry", by decide⟩),
   rfl⟩

/-! ## Claim C7 -/

/-- Claim C7 (confirmed).  On a scope change, `checkChannelChange` clears
exactly the scope-local dedup state — `processedMessages` and
`messageTranslations` become empty — while the global translation cache
is exactly unchanged (in particular its size does not shrink), and the
rotation is reported. -/
theorem c7_scope_rotation_clears_dedup_keeps_cache (w : World)
    (pathname : String) (titleText : Option String)
    (hchange : w.currentChannelId ≠
      some (getCurrentChannelId pathname titleText)) :
    (checkChannelChange w pathname titleText).1 = true ∧
    (checkChannelChange w pathname titleText).2.processedMessages = [] ∧
    (checkChannelChange w pathname titleText).2.messageTranslations = [] ∧
    (checkChannelChange w pathname titleText).2.translationCache =
      w.translationCache ∧
    (checkChannelChange w pathname titleText).2.translationCache.length =
      w.translationCache.length := by
  unfold checkChannelChange
  dsimp only
  rw [if_pos hchange]
  exact ⟨rfl, rfl, rfl, rfl, rfl⟩

/-- Witness for C7 at a concrete channel switch with a non-empty cache. -/
theorem c7_scope_rotation_clears_dedup_keeps_cache_witness :
    (let w0 := { baseW [] with
                   translationCache := [("Hello there", "Ahoj ty")],
                   processedMessages := ["chat-messages-100-201"] }
     w0.currentChannelId ≠ some (getCurrentChannelId "/channels/100/300" none) ∧
     ((checkChannelChange w0 "/channels/100/300" none).1 = true ∧
      (checkChannelChange w0 "/channels/100/300" none).2.processedMessages = [] ∧
      (checkChannelChange w0 "/channels/100/300" none).2.messageTranslations = [] ∧
      (checkChannelChange w0 "/channels/100/300" none).2.translationCache =
        w0.translationCache ∧
      (checkChannelChange w0 "/channels/100/300" none).2.translationCache.length =
        w0.translationCache.length)) :=
  ⟨by decide, c7_scope_rotation_clears_dedup_keeps_cache _ _ none (by decide)⟩

/-! ## Claim C8 -/

/-- Claim C8 (confirmed).  On a page showing, top to bottom, the texts
`Hello`, a fenced code block, and `World`, one automatic discovery pass
collects exactly the translatable texts `Hello` and `World` in document
order (page positions 0 and 2); the code-block message is a non-empty
candidate whose extraction yields nothing, so it is skipped entirely. -/
theorem c8_discovery_hello_code_world :
    (discover (baseW [mkMsg "chat-messages-100-201" "Hello", codeBlockMsg,
        mkMsg "chat-messages-100-203" "World"])
      (msgFilter (baseW [mkMsg "chat-messages-100-201" "Hello", codeBlockMsg,
        mkMsg "chat-messages-100-203" "World"]))).2.map TransItem.text =
      ["Hello", "World"] ∧
    (discover (baseW [mkMsg "chat-messages-100-201" "Hello", codeBlockMsg,
        mkMsg "chat-messages-100-203" "World"])
      (msgFilter (baseW [mkMsg "chat-messages-100-201" "Hello", codeBlockMsg,
        mkMsg "chat-messages-100-203" "World"]))).2.map TransItem.elementIdx =
      [0, 2] ∧
    extractTextParts codeBlockMsg.msg.node = [] ∧
    jsTrim (textContent codeBlockMsg.msg.node) ≠ "" ∧
    (processMessages (fun _ => .ok "Ahoj") false basePath none
      (baseW [mkMsg "chat-messages-100-201" "Hello", codeBlockMsg,
        mkMsg "chat-messages-100-203" "World"])).reqs = ["Hello", "World"] :=
  ⟨rfl, rfl, rfl, by decide, rfl⟩




/-! ## Claim C9 -/

/-- Claim C9 (confirmed).  A message whose subtree contains an editable
region is skipped by the flag-adding discovery pass with no state change:
its container is untouched (no flag, no rendering), its id is not added
to the processed set, and `messageTranslations` is untouched; and once
the edit ends (second conjunct, for any state whose message at the same
position is no longer edited and is otherwise eligible), a later pass
attaches the flag and records the id. -/
theorem c9_editing_skip_and_reeligibility (w : World) (i : Nat) (c : Container)
    (hc : w.page.get? i = some c)
    (hedit : existsDesc isEditNode c.msg.node = true)
    (huniq : ∀ j m, j ≠ i → msgAt w j = some m →
      getMessageId m j ≠ getMessageId c.msg i) :
    ((addFlagIcons w).page.get? i = some c ∧
     (getMessageId c.msg i ∈ (addFlagIcons w).processedMessages ↔
       getMessageId c.msg i ∈ w.processedMessages) ∧
     (addFlagIcons w).messageTranslations = w.messageTranslations) ∧
    (∀ w2 c2, w2.page.get? i = some c2 →
      isMessageBeingEdited c2.msg = false →
      getMessageId c2.msg i ∉ w2.processedMessages →
      (∀ j m, j ≠ i → msgAt w2 j = some m →
        getMessageId m j ≠ getMessageId c2.msg i) →
      hasFlagNearby c2 = false →
      mapHas w2.messageTranslations (getMessageId c2.msg i) = false →
      shouldSkipMessage c2.msg = false →
      jsTrim (textContent c2.msg.node) ≠ "" →
      c2.msg.visible = true →
      c2.hasParent = true →
      (addFlagIcons w2).page.get? i =
        some { c2 with attached := .flag .idle :: c2.attached } ∧
      getMessageId c2.msg i ∈ (addFlagIcons w2).processedMessages) := by
  have heditB : isMessageBeingEdited c.msg = true := by
    unfold isMessageBeingEdited
    rw [hedit, Bool.true_or]
  have hilt : i < w.page.length := (List.get?_eq_some.mp hc).1
  obtain ⟨pre, post, hsplit, hpre, hpost⟩ := range_split hilt
  have hw1 : addFlagIcons w = flagPass (flagStep (flagPass w pre) i) post := by
    rw [addFlagIcons_eq_flagPass, hsplit]
    simp only [flagPass, List.foldl_append, List.foldl_cons]
  have hu : (flagPass w pre).page.get? i = some c := by
    rw [flagPass_get_ne pre w i hpre]; exact hc
  have hstep : flagStep (flagPass w pre) i = flagPass w pre :=
    flagStep_edited hu heditB
  refine ⟨⟨?_, ?_, ?_⟩, ?_⟩
  · rw [hw1, hstep, flagPass_get_ne post _ i hpost]; exact hu
  · constructor
    · intro hx
      rw [addFlagIcons_eq_flagPass] at hx
      rcases flagPass_processed_new _ _ _ hx with h1 | ⟨j, _, m, hm, hxx, hme⟩
      · exact h1
      · by_cases hji : j = i
        · subst hji
          have hmc : m = c.msg := by
            unfold msgAt at hm; rw [hc] at hm
            exact (Option.some.inj hm).symm
          rw [hmc, heditB] at hme
          exact absurd hme (by decide)
        · exact absurd hxx.symm (huniq j m hji hm)
    · intro hx
      rw [addFlagIcons_eq_flagPass]
      exact flagPass_processed_mono _ _ _ hx
  · rw [addFlagIcons_eq_flagPass]
    exact flagPass_msgTransl _ _
  · intro w2 c2 hc2 hedit2 hpc2 huniq2 hfl2 htr2 hsk2 hem2 hvis2 hpar2
    have hilt2 : i < w2.page.length := (List.get?_eq_some.mp hc2).1
    obtain ⟨pre2, post2, hsplit2, hpre2, hpost2⟩ := range_split hilt2
    have hw12 : addFlagIcons w2 = flagPass (flagStep (flagPass w2 pre2) i) post2 := by
      rw [addFlagIcons_eq_flagPass, hsplit2]
      simp only [flagPass, List.foldl_append, List.foldl_cons]
    have hu2 : (flagPass w2 pre2).page.get? i = some c2 := by
      rw [flagPass_get_ne pre2 w2 i hpre2]; exact hc2
    have hupc : (flagPass w2 pre2).processedMessages.contains
        (getMessageId c2.msg i) = false := by
      apply Bool.eq_false_iff.mpr
      intro hcont
      rcases flagPass_processed_new pre2 w2 _ (List.mem_of_elem_eq_true hcont) with
        h1 | ⟨j, hj, m, hm, hxx, hme⟩
      · exact hpc2 h1
      · exact huniq2 j m (hpre2 j hj) hm hxx.symm
    have hutr : mapHas (flagPass w2 pre2).messageTranslations
        (getMessageId c2.msg i) = false := by
      rw [flagPass_msgTransl]; exact htr2
    have hstep2 := flagStep_eval_attach hu2 hedit2 hupc hfl2 hutr hsk2 hem2 hvis2 hpar2
    have hltu : i < (flagPass w2 pre2).page.length := by
      rw [flagPass_len]; exact hilt2
    constructor
    · rw [hw12, hstep2, flagPass_get_ne post2 _ i hpost2]
      show ((flagPass w2 pre2).page.set i _).get? i = _
      rw [List.get?_eq_getElem?]
      exact List.getElem?_set_eq hltu
    · rw [hw12]
      apply flagPass_processed_mono
      rw [hstep2]
      exact setAdd_self _ _

/-- Witness for C9: the edited message is untouched by a pass, and the
same message with the edit finished receives a flag. -/
theorem c9_editing_skip_and_reeligibility_witness :
    existsDesc isEditNode editedMsg.msg.node = true ∧
    (addFlagIcons (baseW [editedMsg])).page.get? 0 = some editedMsg ∧
    (addFlagIcons (baseW [editedMsg])).processedMessages = [] ∧
    ((addFlagIcons (baseW [mkMsg "chat-messages-100-205" "Hello editing"])).page.get? 0 =
       some { mkMsg "chat-messages-100-205" "Hello editing" with
                attached := [Att.flag FlagState.idle] } ∧
     "chat-messages-100-205" ∈
       (addFlagIcons (baseW [mkMsg "chat-messages-100-205" "Hello editing"])).processedMessages) := by
  have huniq1 : ∀ j m, j ≠ 0 → msgAt (baseW [editedMsg]) j = some m →
      getMessageId m j ≠ getMessageId editedMsg.msg 0 := by
    intro j m hj hm
    cases j with
    | zero => exact absurd rfl hj
    | succ n =>
      rw [msgAt] at hm
      simp [baseW] at hm
  have h := c9_editing_skip_and_reeligibility (baseW [editedMsg]) 0 editedMsg
    rfl (by decide) huniq1
  have huniq2 : ∀ j m, j ≠ 0 →
      msgAt (baseW [mkMsg "chat-messages-100-205" "Hello editing"]) j = some m →
      getMessageId m j ≠
        getMessageId (mkMsg "chat-messages-100-205" "Hello editing").msg 0 := by
    intro j m hj hm
    cases j with
    | zero => exact absurd rfl hj
    | succ n =>
      rw [msgAt] at hm
      simp [baseW] at hm
  have hd := h.2 (baseW [mkMsg "chat-messages-100-205" "Hello editing"])
    (mkMsg "chat-messages-100-205" "Hello editing") rfl (by decide)
    (List.not_mem_nil _) huniq2 (by decide) (by decide) (by decide) (by decide)
    rfl rfl
  exact ⟨by decide, h.1.1, rfl, hd⟩

/-! ## Claim C10 -/

/-- Claim C10 (confirmed).  The flag-adding discovery pass is idempotent:
run twice from any state with no external change in between, the second
pass attaches no second flag and no rendering and changes nothing at all —
every message handled by the first pass is skipped by the second via the
processed-id set, the nearby-flag check, or the unchanged skip
conditions. -/
theorem c10_addFlagIcons_idempotent (w : World) :
    addFlagIcons (addFlagIcons w) = addFlagIcons w := by
  set w1 := addFlagIcons w with hw1
  rw [addFlagIcons_eq_flagPass w1]
  have hlen : w1.page.length = w.page.length := by
    rw [hw1, addFlagIcons_eq_flagPass]; exact flagPass_len _ _
  rw [hlen]
  apply flagPass_stable_all
  intro j hj
  have hjlt : j < w.page.length := List.mem_range.mp hj
  obtain ⟨pre, post, hsplit, hpre, hpost⟩ := range_split hjlt
  have hw1' : w1 = flagPass (flagStep (flagPass w pre) j) post := by
    rw [hw1, addFlagIcons_eq_flagPass, hsplit]
    simp only [flagPass, List.foldl_append, List.foldl_cons]
  apply flagStep_stable (flagPass w pre) w1 j
  · rw [hw1']
    exact flagPass_get_ne post _ j (fun x hx => hpost x hx)
  · intro x hx
    rw [hw1']
    exact flagPass_processed_mono _ _ _ hx
  · rw [hw1']
    exact flagPass_msgTransl _ _


end DiMeTrans
